import Mathlib

/-!
# Verification of the Live-Belt-Tension resonance detection engine

Shallow embedding of the belt resonance detection engine
(`belt_pluck_detector.py`, `belt_analyzer_v3.py`, `belt_sweep_analyzer.py`,
`belt_tuner_web_ab.py`) and proofs settling the specification claims.

Machine floats are embedded as exact rationals (`ℚ`) where every operation of
the modelled code is a field operation or comparison; the places where the
code takes square roots (signal magnitude, axis norm, and the half-power
level) are embedded polymorphically over a linear ordered field together with
the square-root function, and the claims about them are stated at `ℝ` with
`Real.sqrt`.

The FFT/Welch spectral estimation itself is not re-verified; the claims below
are about the stages that consume its outputs (peak lists, spectra as
frequency/magnitude arrays), which are embedded faithfully statement by
statement from the Python source.
-/

set_option maxRecDepth 40000

set_option maxHeartbeats 1000000

/-- First element of `c :: cs` attaining the maximal key, scanning left to
right and replacing only on a strictly larger key.  This is the value Python's
stable `list.sort(key=k, reverse=True)` followed by `[0]` produces, and also
the value of Python's `max(xs, key=k)`. -/
def pickMax {α β : Type} [LinearOrder β] (k : α → β) (c : α) (cs : List α) : α :=
  cs.foldl (fun acc d => if k acc < k d then d else acc) c

/-- First element of `c :: cs` attaining the minimal key (Python's
`min(xs, key=k)`). -/
def pickMin {α β : Type} [LinearOrder β] (k : α → β) (c : α) (cs : List α) : α :=
  cs.foldl (fun acc d => if k d < k acc then d else acc) c

/-- Round to the nearest integer, ties to even — the rounding Python's builtin
`round` applies. -/
def bankersRound (x : ℚ) : ℤ :=
  let f := ⌊x⌋
  let r := x - f
  if r < 1/2 then f
  else if 1/2 < r then f + 1
  else if 2 ∣ f then f else f + 1

/-- Python's `round(x, 1)`. -/
def round1 (x : ℚ) : ℚ := (bankersRound (10 * x) : ℚ) / 10

/-- Python's `round(x, 2)`. -/
def round2 (x : ℚ) : ℚ := (bankersRound (100 * x) : ℚ) / 100

/-- Python's `max` on a list of numbers (0 for the empty list, on which the
modelled code never calls it). -/
def listMax {K : Type} [LinearOrderedField K] : List K → K
  | [] => 0
  | x :: xs => pickMax id x xs

/-- Python's `min` on a list of numbers. -/
def listMin {K : Type} [LinearOrderedField K] : List K → K
  | [] => 0
  | x :: xs => pickMin id x xs

/-- `np.mean` of a list (`0/0 = 0` for the empty list, on which the modelled
code never calls it). -/
def listMean {K : Type} [LinearOrderedField K] (l : List K) : K := l.sum / l.length

namespace BeltPluck

/-!
## `belt_pluck_detector.py` (`analyze_pluck`, the scoring pluck variant)
-/

/-- One entry of the `candidates` list built in step 7 of `analyze_pluck`:
frequency, raw magnitude, SNR (`mag / noise_floor`), Q-factor, and the
optional `is_decaying` flag added in step 8 (absent for candidates beyond the
first three). -/
structure Candidate where
  freq : ℚ
  mag : ℚ
  snr : ℚ
  q_factor : ℚ
  is_decaying : Option Bool
deriving DecidableEq

/-- Step 9 of `analyze_pluck`: the integer score accumulated over the four
quality checks (`candidate.get('is_decaying', False)` is embedded as
`getD false`). -/
def score (c : Candidate) : ℤ :=
  (if 10 < c.q_factor then 3 else if 5 < c.q_factor then 1 else 0)
  + (if 5 < c.snr then 2 else if 3 < c.snr then 1 else 0)
  + (if c.is_decaying.getD false then 3 else 0)
  + (if 80 ≤ c.freq ∧ c.freq ≤ 140 then 2 else 0)

inductive Confidence
  | HIGH
  | MEDIUM
  | LOW
deriving DecidableEq

/-- The confidence label derived from the best candidate's score. -/
def confidenceOfScore (s : ℤ) : Confidence :=
  if 6 ≤ s then .HIGH else if 4 ≤ s then .MEDIUM else .LOW

/-- `candidates.sort(key=lambda x: x['score'], reverse=True)` followed by
`candidates[0]`: Python's sort is stable, so this is the first candidate (in
the magnitude-descending order the list was built in) attaining the maximal
score. -/
def selectBest : List Candidate → Option Candidate
  | [] => none
  | c :: cs => some (pickMax score c cs)

/-- `np.where(mags > half_power)[0]`: the ascending indices of the bins whose
magnitude strictly exceeds the half-power level. -/
def aboveHalfIndices {K : Type} [LinearOrderedField K] (half_power : K) (mags : List K) :
    List ℕ :=
  (List.range mags.length).filter fun i => decide (half_power < mags.getD i 0)

/-- `calculate_q_factor(center_freq, center_mag, freqs, mags)` from
`belt_pluck_detector.py`: frequency divided by the half-power bandwidth
(`freqs[indices[-1]] - freqs[indices[0]]`), with 0 returned when fewer than
two bins clear the half-power level or when the bandwidth is zero. -/
def calculate_q_factor {K : Type} [LinearOrderedField K] (sqrt : K → K)
    (center_freq center_mag : K) (freqs mags : List K) : K :=
  let half_power := center_mag / sqrt 2
  let idxs := aboveHalfIndices half_power mags
  if idxs.length < 2 then 0
  else
    let bandwidth := freqs.getD (idxs.getLastD 0) 0 - freqs.getD (idxs.headD 0) 0
    if bandwidth = 0 then 0 else center_freq / bandwidth

/-- The spec's phrasing of the Q-factor ("the span between the lowest and
highest in-band frequency whose magnitude exceeds `candidate_magnitude/√2`"),
written with an explicit minimum and maximum over the selected frequencies
instead of the code's first/last bin index, for comparison with
`calculate_q_factor`. -/
def q_factor_spec {K : Type} [LinearOrderedField K] (sqrt : K → K)
    (center_freq center_mag : K) (freqs mags : List K) : K :=
  let sel := (aboveHalfIndices (center_mag / sqrt 2) mags).map fun j => freqs.getD j 0
  if sel.length < 2 then 0
  else
    let bandwidth := listMax sel - listMin sel
    if bandwidth = 0 then 0 else center_freq / bandwidth

/-- STEP 1 + STEP 2 of `analyze_pluck`: remove the per-axis mean, then take
the per-sample Euclidean magnitude. -/
def pluckWorkingSignal {K : Type} [LinearOrderedField K] (sqrt : K → K)
    (accel_x accel_y : List K) : List K :=
  let mx := listMean accel_x
  let my := listMean accel_y
  List.zipWith (fun x y => sqrt ((x - mx)^2 + (y - my)^2)) accel_x accel_y

inductive PluckErr
  | insufficientSamples
  | noDataInBand
  | noPeaksAboveNoiseFloor
deriving DecidableEq

/-- The result dictionary of `analyze_pluck`; on the insufficient-samples
path only `samples` and `error` are set. -/
structure PluckOut where
  frequency : Option ℚ
  snr : Option ℚ
  q_factor : Option ℚ
  confidence : Option Confidence
  score : Option ℤ
  is_decaying : Option Bool
  sample_rate : Option ℚ
  samples : Option ℕ
  error : Option PluckErr
deriving DecidableEq

/-- `{'error': 'Insufficient samples', 'samples': len(data)}`. -/
def insufficientResult (n : ℕ) : PluckOut :=
  ⟨none, none, none, none, none, none, none, some n, some .insufficientSamples⟩

/-- The length guard at the top of `analyze_pluck` (`if len(data) < 512`),
with the remainder of the pipeline abstracted as `rest` (it operates only on
buffers that pass the guard). -/
def analyze_pluck_entry (data : List (ℚ × ℚ × ℚ))
    (rest : List (ℚ × ℚ × ℚ) → PluckOut) : PluckOut :=
  if data.length < 512 then insufficientResult data.length else rest data

end BeltPluck

namespace V3

/-!
## `belt_analyzer_v3.py`
-/

/-- `parabolic_interpolation(freqs, magnitudes, peak_idx)`: sub-bin peak
refinement.  Out-of-range accesses are embedded with `getD` (the code only
calls it with a valid peak index). -/
def parabolic_interpolation (freqs magnitudes : List ℚ) (peak_idx : ℕ) : ℚ :=
  if peak_idx = 0 ∨ magnitudes.length ≤ peak_idx + 1 then freqs.getD peak_idx 0
  else
    let y1 := magnitudes.getD (peak_idx - 1) 0
    let y2 := magnitudes.getD peak_idx 0
    let y3 := magnitudes.getD (peak_idx + 1) 0
    let denom := y1 - 2 * y2 + y3
    if denom = 0 then freqs.getD peak_idx 0
    else
      let delta := (1/2) * (y1 - y3) / denom
      let freq_resolution := freqs.getD 1 0 - freqs.getD 0 0
      freqs.getD peak_idx 0 + delta * freq_resolution

/-- `np.argmin(np.abs(freqs - freq))`: first index minimising the distance to
`freq` (0 for an empty array, on which the code never calls it). -/
def nearestBinIdx {K : Type} [LinearOrderedField K] (freqs : List K) (freq : K) : ℕ :=
  match List.range freqs.length with
  | [] => 0
  | i :: is => pickMin (fun j => |freqs.getD j 0 - freq|) i is

/-- `calculate_q_factor(freq, freqs, magnitudes)` from `belt_analyzer_v3.py`:
identical to the pluck-detector version except that the reference magnitude
is read from the bin nearest to `freq`. -/
def calculate_q_factor {K : Type} [LinearOrderedField K] (sqrt : K → K)
    (freq : K) (freqs mags : List K) : K :=
  let peak_idx := nearestBinIdx freqs freq
  let peak_mag := mags.getD peak_idx 0
  let half_power := peak_mag / sqrt 2
  let idxs := BeltPluck.aboveHalfIndices half_power mags
  if idxs.length < 2 then 0
  else
    let bandwidth := freqs.getD (idxs.getLastD 0) 0 - freqs.getD (idxs.headD 0) 0
    if bandwidth = 0 then 0 else freq / bandwidth

inductive V3Err
  | insufficientSamples
  | insufficientDataAfterTrigger
  | noPsdInRange
  | noFftInRange
deriving DecidableEq

/-- The result dictionary of `analyze_pluck_event`. -/
structure V3Out where
  frequency : Option ℚ
  q_factor : Option ℚ
  confidence : Option String
  sample_rate : Option ℚ
  error : Option V3Err
deriving DecidableEq

/-- The length guard at the top of `analyze_pluck_event`
(`if len(data) < 1000`), with the remainder of the pipeline abstracted. -/
def analyze_pluck_event_entry (data : List (ℚ × ℚ × ℚ))
    (rest : List (ℚ × ℚ × ℚ) → V3Out) : V3Out :=
  if data.length < 1000 then ⟨none, none, none, none, some .insufficientSamples⟩
  else rest data

end V3

namespace Sweep

/-!
## `belt_sweep_analyzer.py`
-/

/-- The sub-bin refinement inlined in `_extract_peaks`: the peak frequency
after the parabolic correction (before the `round(f, 2)` applied when the
peak is appended to the result list).  `bin_hz` defaults to 1 for a
single-bin band, as in the source. -/
def refineExtract (freq_r psd_r : List ℚ) (idx : ℕ) : ℚ :=
  let f := freq_r.getD idx 0
  if 0 < idx ∧ idx + 1 < psd_r.length then
    let y0 := psd_r.getD (idx - 1) 0
    let y1 := psd_r.getD idx 0
    let y2 := psd_r.getD (idx + 1) 0
    let denom := 2 * (2 * y1 - y0 - y2)
    if denom ≠ 0 then
      let bin_hz := if 1 < freq_r.length then freq_r.getD 1 0 - freq_r.getD 0 0 else 1
      f + (y2 - y0) / denom * bin_hz
    else f
  else f

/-- The sub-bin refinement inlined in `analyze_sweep_csv` (step 5): identical
formula, except that the degenerate bin width defaults to 0. -/
def refineCsv (freq_r psd_r : List ℚ) (peak_idx : ℕ) : ℚ :=
  let peak_freq := freq_r.getD peak_idx 0
  if 0 < peak_idx ∧ peak_idx + 1 < psd_r.length then
    let y0 := psd_r.getD (peak_idx - 1) 0
    let y1 := psd_r.getD peak_idx 0
    let y2 := psd_r.getD (peak_idx + 1) 0
    let denom := 2 * (2 * y1 - y0 - y2)
    if denom ≠ 0 then
      let freq_step := if 1 < freq_r.length then freq_r.getD 1 0 - freq_r.getD 0 0 else 0
      peak_freq + (y2 - y0) / denom * freq_step
    else peak_freq
  else peak_freq

/-- The working signal constructed by `_load_and_project`: the raw per-sample
projection `(ax*nx + ay*ny)/norm` when an axis with positive norm is supplied
(`proj`), otherwise the raw per-sample magnitude `sqrt(ax^2 + ay^2)`; the
mean of the resulting scalar signal is subtracted at the end
(`mag = mag - np.mean(mag)`). -/
def sweepWorkingSignal {K : Type} [LinearOrderedField K] (sqrt : K → K)
    (ax ay : List K) (axis : Option (K × K)) : List K :=
  let proj : Option (List K) :=
    match axis with
    | some (nx, ny) =>
      if 0 < sqrt (nx^2 + ny^2) then
        some (List.zipWith (fun x y => (x * nx + y * ny) / sqrt (nx^2 + ny^2)) ax ay)
      else none
    | none => none
  let mag := proj.getD (List.zipWith (fun x y => sqrt (x^2 + y^2)) ax ay)
  mag.map fun v => v - listMean mag

/-- Modelled from the spec: "compute per-axis mean and subtract (DC removal);
... otherwise the signal is the Euclidean norm of the centered axis pair".
Used to compare the spec's claimed order of operations with the code. -/
def specCenteredMagnitude {K : Type} [LinearOrderedField K] (sqrt : K → K)
    (ax ay : List K) : List K :=
  let mx := listMean ax
  let my := listMean ay
  List.zipWith (fun x y => sqrt ((x - mx)^2 + (y - my)^2)) ax ay

/-- Modelled from the spec: "if an axis vector is supplied and non-degenerate
(norm > 0), the signal is the dot product of the per-sample axis pair with
the normalized vector", applied to the mean-centered axes. -/
def specCenteredProjection {K : Type} [LinearOrderedField K] (sqrt : K → K)
    (ax ay : List K) (nx ny : K) : List K :=
  let mx := listMean ax
  let my := listMean ay
  let s := sqrt (nx^2 + ny^2)
  List.zipWith (fun x y => (x - mx) * (nx / s) + (y - my) * (ny / s)) ax ay

/-- One line of a raw resonance CSV, abstracted by how the two passes of the
source classify it: `blank` (`strip()` empty), `comment` (starts with `#`),
`malformed` (fewer than 3 comma-separated fields or unparseable floats), or a
parsed data row. -/
inductive Line
  | blank
  | comment
  | malformed
  | data (t ax ay : ℚ)
deriving DecidableEq

/-- The rows `_load_and_project` accumulates: every parseable data line. -/
def parsedRows (ls : List Line) : List (ℚ × ℚ × ℚ) :=
  ls.filterMap fun l =>
    match l with
    | .data t x y => some (t, x, y)
    | _ => none

/-- The error path of `analyze_sweep_csv` re-reads the file and counts
`[l for l in f if not l.startswith('#') and l.strip()]`: every line that is
neither a comment nor blank. -/
def countedLines (ls : List Line) : ℕ :=
  (ls.filter fun l =>
    match l with
    | .comment => false
    | .blank => false
    | _ => true).length

inductive SweepErr
  | insufficientData (samples : ℕ)
  | failedToLoad
  | readError
  | noBinsInRange
  | needTwoPositions
deriving DecidableEq

inductive Conf
  | HIGH
  | MEDIUM
  | LOW
  | UNRELIABLE
deriving DecidableEq

/-- The SNR-to-confidence mapping used by `analyze_sweep_csv` (step 6) and by
the calibration-guided selection of `analyze_multi_position_sweep`. -/
def confOfSnr (snr : ℚ) : Conf :=
  if 15 < snr then .HIGH else if 7 < snr then .MEDIUM else if 3 < snr then .LOW
  else .UNRELIABLE

/-- The result dictionary of `analyze_sweep_csv`. -/
structure SweepOut where
  frequency : Option ℚ
  confidence : Option Conf
  q_factor : Option ℚ
  snr : Option ℚ
  sample_rate : Option ℚ
  error : Option SweepErr
deriving DecidableEq

/-- The `FAIL` lambda of `analyze_sweep_csv`: every numeric field `None`,
only `error` set. -/
def FAIL (e : SweepErr) : SweepOut := ⟨none, none, none, none, none, some e⟩

/-- The load-and-guard stage of `analyze_sweep_csv`: `_load_and_project`
returns `None` when fewer than 500 data rows parse; the error path then
counts the non-comment, non-blank lines to decide between the
insufficient-data error and the generic load failure.  The spectral analysis
performed on buffers that pass the guard is abstracted as `rest`. -/
def analyze_sweep_entry (ls : List Line) (rest : List (ℚ × ℚ × ℚ) → SweepOut) : SweepOut :=
  if (parsedRows ls).length < 500 then
    if countedLines ls < 500 then FAIL (.insufficientData (countedLines ls))
    else FAIL .failedToLoad
  else rest (parsedRows ls)

/-!
### `analyze_multi_position_sweep`

The multi-position discriminator is embedded from its stage-1 interface
onward: each scanned position contributes its Y position, the top-N peak
list `_extract_peaks` returns for it (frequency/normalised-power pairs), and
the full single-position result of `analyze_sweep_csv`.
-/

/-- Per-position stage-1 data of `analyze_multi_position_sweep`. -/
structure PosData where
  y : ℚ
  peaks : List (ℚ × ℚ)
  full : SweepOut
deriving DecidableEq

def STRUCT_BIN : ℚ := 4

def CALIB_WINDOW : ℚ := 12

/-- Stage 2: the structural fingerprint set.  For every pair of distinct
positions (`i < j` in the position list) and every pair of their peaks within
`±STRUCT_BIN`, both frequencies are added.  Membership in this list is
exactly membership in the Python `structural_freqs` set (the set only
deduplicates). -/
def structuralList : List PosData → List ℚ
  | [] => []
  | p :: ps =>
    (p.peaks.flatMap fun q =>
      ps.flatMap fun pj =>
        pj.peaks.flatMap fun r =>
          if |q.1 - r.1| ≤ STRUCT_BIN then [q.1, r.1] else []) ++ structuralList ps

/-- `np.interp` over the calibration points `(y, freq)` (assumed sorted
ascending by `y`, as `_interpolate_calibration` requires): clamped at the
ends, linear in between. -/
def interpCal : List (ℚ × ℚ) → ℚ → ℚ
  | [], _ => 0
  | [(_, v)], _ => v
  | (x1, v1) :: (x2, v2) :: rest, y =>
    if y ≤ x1 then v1
    else if y ≤ x2 then v1 + (v2 - v1) * (y - x1) / (x2 - x1)
    else interpCal ((x2, v2) :: rest) y

/-- Stage 3: `in_window` — all peaks within `±CALIB_WINDOW` of the expected
(calibration-interpolated) frequency. -/
def inWindow (calib : List (ℚ × ℚ)) (pd : PosData) : List (ℚ × ℚ) :=
  pd.peaks.filter fun q => decide (|q.1 - interpCal calib pd.y| ≤ CALIB_WINDOW)

/-- Stage 3: `non_struct` — the in-window peaks further than `STRUCT_BIN`
from every structural frequency. -/
def nonStruct (sl : List ℚ) (calib : List (ℚ × ℚ)) (pd : PosData) : List (ℚ × ℚ) :=
  (inWindow calib pd).filter fun q => ! sl.any fun sf => decide (|q.1 - sf| ≤ STRUCT_BIN)

/-- Stage 3: `candidates = non_struct if non_struct else in_window`. -/
def candidatesAt (sl : List ℚ) (calib : List (ℚ × ℚ)) (pd : PosData) : List (ℚ × ℚ) :=
  if nonStruct sl calib pd = [] then inWindow calib pd else nonStruct sl calib pd

/-- The per-position choice (`chosen_freq`, `chosen_snr`, `chosen_conf`). -/
structure Chosen where
  freq : Option ℚ
  snr : Option ℚ
  conf : Option Conf
deriving DecidableEq

/-- Stage 3 of `analyze_multi_position_sweep` at one position: with a
non-empty calibration and peak list, pick the candidate closest to the
expected frequency (`min(candidates, key=lambda x: abs(x[0] - expected))`)
and derive an SNR estimate `power * 20`; otherwise fall back to the
position's full time-matched result. -/
def selectAtPosition (sl : List ℚ) (calib : List (ℚ × ℚ)) (pd : PosData) : Chosen :=
  if calib = [] ∨ pd.peaks = [] then ⟨pd.full.frequency, pd.full.snr, pd.full.confidence⟩
  else
    match candidatesAt sl calib pd with
    | [] => ⟨pd.full.frequency, pd.full.snr, pd.full.confidence⟩
    | c :: cs =>
      let expected := interpCal calib pd.y
      let best := pickMin (fun q => |q.1 - expected|) c cs
      let estimated_snr := best.2 * 20
      ⟨some best.1, some (round1 estimated_snr), some (confOfSnr estimated_snr)⟩

/-- `scans = sorted(scans, key=lambda s: s['y_pos'])`. -/
def sortedScans (scans : List PosData) : List PosData :=
  List.insertionSort (fun a b => a.y ≤ b.y) scans

/-- Stages 2–3 over the sorted position list: the per-position `(y, chosen)`
pairs. -/
def perPosition (scans : List PosData) (calib : List (ℚ × ℚ)) : List (ℚ × Chosen) :=
  let pos := sortedScans scans
  let sl := structuralList pos
  pos.map fun pd => (pd.y, selectAtPosition sl calib pd)

/-- Stage 4: the reporting position — the first entry at exactly `y = 100`,
else the first entry minimising `|y - 100|`. -/
def reportEntry (per : List (ℚ × Chosen)) : ℚ × Chosen :=
  match per.filter fun p => decide (p.1 = 100) with
  | r :: _ => r
  | [] =>
    match per with
    | [] => (0, ⟨none, none, none⟩)
    | e :: es => pickMin (fun p => |p.1 - 100|) e es

/-- The `valid_freqs` list of stage 5: every chosen per-position frequency. -/
def selectedFreqs (per : List (ℚ × Chosen)) : List ℚ :=
  per.filterMap fun p => p.2.freq

/-- The calibration-implied expected mobility: the spread of the calibration
frequencies interpolated at the (sorted) scan positions, defaulting to 30
with fewer than two values. -/
def expectedMobility (scans : List PosData) (calib : List (ℚ × ℚ)) : ℚ :=
  let exp_freqs := (sortedScans scans).map fun s => interpCal calib s.y
  if 2 ≤ exp_freqs.length then listMax exp_freqs - listMin exp_freqs else 30

inductive Classification
  | belt
  | ambiguous
  | structural_only
deriving DecidableEq

/-- One entry of `position_results`. -/
structure PosResult where
  y : ℚ
  frequency : Option ℚ
  confidence : Option Conf
  snr : Option ℚ
deriving DecidableEq

/-- The result dictionary of `analyze_multi_position_sweep`. -/
structure MultiResult where
  frequency : Option ℚ
  confidence : Option Conf
  q_factor : Option ℚ
  snr : Option ℚ
  sample_rate : Option ℚ
  error : Option SweepErr
  positionResults : List PosResult
  peakMobility : ℚ
  classification : Classification
deriving DecidableEq

/-- `_fallback_single_position`: report the single-position full result of
the position closest to `Y = 100`, classified `structural_only` with zero
mobility; `position_results` carries the full per-position results. -/
def fallbackSingle (entries : List (ℚ × SweepOut)) : MultiResult :=
  match entries with
  | [] => ⟨none, none, none, none, none, some .needTwoPositions, [], 0, .structural_only⟩
  | e :: es =>
    let best := pickMin (fun p => |p.1 - 100|) e es
    ⟨best.2.frequency, best.2.confidence, best.2.q_factor, best.2.snr, best.2.sample_rate,
      best.2.error,
      entries.map fun p => ⟨p.1, p.2.frequency, p.2.confidence, p.2.snr⟩,
      0, .structural_only⟩

/-- `analyze_multi_position_sweep`, from the stage-1 per-position data
onward.  The first `sample_rate` reported non-`None` and nonzero by a
position's full result is carried through; the structural fingerprint,
per-position selection, reporting position, mobility and classification
follow the source stage by stage.  (The code filters `None` out of the
interpolated expected frequencies; with a non-empty calibration the
interpolation never returns `None`, so `expectedMobility` elides that
vacuous filter.) -/
def analyzeMultiPosition (scans : List PosData) (calib : List (ℚ × ℚ)) : MultiResult :=
  if scans.length < 2 then
    ⟨none, none, none, none, none, some .needTwoPositions, [], 0, .structural_only⟩
  else
    let pos := sortedScans scans
    let sample_rate := ((pos.filterMap fun pd => pd.full.sample_rate).filter
      fun r => decide (r ≠ 0)).headD 0
    let per := perPosition scans calib
    let report := reportEntry per
    match report.2.freq with
    | none => fallbackSingle (pos.map fun pd => (pd.y, pd.full))
    | some bf =>
      let valid := selectedFreqs per
      let mobility := if 2 ≤ valid.length then round1 (listMax valid - listMin valid) else 0
      let classification :=
        if calib ≠ [] ∧ 2 ≤ scans.length then
          if expectedMobility scans calib * (2/5) ≤ mobility then Classification.belt
          else .ambiguous
        else if 10 ≤ mobility then Classification.belt else .ambiguous
      ⟨some (round1 bf), report.2.conf, report.2.snr.map round1, report.2.snr.map round1,
        some (round1 sample_rate), none,
        per.map fun p => ⟨p.1, p.2.freq, p.2.conf, p.2.snr⟩,
        mobility, classification⟩

/-- An all-`None` single-position result, used as the stage-1 `full` slot of
the concrete counterexample scans below. -/
def emptyFull : SweepOut := ⟨none, none, none, none, none, none⟩

/-- A stage-1 position record with the given Y and peak list. -/
def mkPos (y : ℚ) (pks : List (ℚ × ℚ))  : PosData := ⟨y, pks, emptyFull⟩

/-- Three positions carrying an identical injected 90 Hz peak (the spec's
structural-invariance scenario). -/
def c3scans : List PosData := [mkPos 80 [(90, 1)], mkPos 100 [(90, 1)], mkPos 120 [(90, 1)]]

/-- A calibration expecting 92 Hz at every scanned position, so the 90 Hz
peak lies inside the calibration window. -/
def c3cal : List (ℚ × ℚ) := [(80, 92), (120, 92)]

/-- Two positions whose selected frequencies are 100 Hz and 110.25 Hz. -/
def c5scans : List PosData := [mkPos 80 [(100, 1)], mkPos 120 [(441/4, 1)]]

/-- Calibration 100 Hz at Y=80 and 110 Hz at Y=120. -/
def c5cal : List (ℚ × ℚ) := [(80, 100), (120, 110)]

/-- 499 parseable data rows padded with 3 malformed lines: below the 500-row
parse minimum while the raw non-comment line count reaches 502. -/
def c9lines : List Line :=
  List.replicate 499 (Line.data 0 0 0) ++ List.replicate 3 Line.malformed

end Sweep

namespace WebAB

/-!
## `belt_tuner_web_ab.py` (`analyze_belt_frequency_improved`, steps 6–7)
-/

/-- The `ratios` list of the harmonic filter. -/
def harmonicRatios : List ℚ := [1/2, 2, 3, 33/100, 3/2]

/-- The harmonic test for `peak_freqs[i]`: some other peak `j` has a ratio
`r` with `|freq_i - freq_j * r| < 5` and `mags[i] < mags[j] * 0.8`.  The
`break` statements of the source only exit once `is_harmonic` is set, so the
loops compute exactly this existential. -/
def isHarmonicAt (peaks : List (ℚ × ℚ)) (i : ℕ) : Bool :=
  (List.range peaks.length).any fun j =>
    decide (i ≠ j) && harmonicRatios.any fun ratio =>
      decide (|(peaks.getD i (0, 0)).1 - (peaks.getD j (0, 0)).1 * ratio| < 5) &&
      decide ((peaks.getD i (0, 0)).2 < (peaks.getD j (0, 0)).2 * (4/5))

/-- STEP 6: the peaks that survive harmonic filtering, in their original
order. -/
def valid_peaks (peaks : List (ℚ × ℚ)) : List (ℚ × ℚ) :=
  ((List.range peaks.length).filter fun i => ! isHarmonicAt peaks i).map
    fun i => peaks.getD i (0, 0)

/-- STEP 7: `valid_peaks.sort(key=lambda x: x[1], reverse=True)` and take the
first (strongest) valid peak; `None` when every peak was rejected as a
harmonic. -/
def best_peak (peaks : List (ℚ × ℚ)) : Option (ℚ × ℚ) :=
  match valid_peaks peaks with
  | [] => none
  | c :: cs => some (pickMax Prod.snd c cs)

end WebAB

/-!
# Theorems
-/

theorem pickMax_cons {α β : Type} [LinearOrder β] (k : α → β) (c d : α) (cs : List α) :
    pickMax k c (d :: cs) = pickMax k (if k c < k d then d else c) cs := rfl

theorem pickMin_cons {α β : Type} [LinearOrder β] (k : α → β) (c d : α) (cs : List α) :
    pickMin k c (d :: cs) = pickMin k (if k d < k c then d else c) cs := rfl

theorem pickMax_mem {α β : Type} [LinearOrder β] (k : α → β) :
    ∀ (cs : List α) (c : α), pickMax k c cs ∈ c :: cs := by
  intro cs
  induction cs with
  | nil => intro c; simp [pickMax]
  | cons d cs ih =>
    intro c
    rw [pickMax_cons]
    rcases List.mem_cons.1 (ih (if k c < k d then d else c)) with h | h
    · rw [h]
      by_cases hc : k c < k d
      · rw [if_pos hc]; exact List.mem_cons_of_mem _ (List.mem_cons_self _ _)
      · rw [if_neg hc]; exact List.mem_cons_self _ _
    · exact List.mem_cons_of_mem _ (List.mem_cons_of_mem _ h)

theorem pickMax_le {α β : Type} [LinearOrder β] (k : α → β) :
    ∀ (cs : List α) (c : α) (d : α), d ∈ c :: cs → k d ≤ k (pickMax k c cs) := by
  intro cs
  induction cs with
  | nil => intro c d hd; simp at hd; subst hd; simp [pickMax]
  | cons e cs ih =>
    intro c d hd
    rw [pickMax_cons]
    have hc : k c ≤ k (if k c < k e then e else c) := by
      by_cases h : k c < k e
      · rw [if_pos h]; exact le_of_lt h
      · rw [if_neg h]
    have he : k e ≤ k (if k c < k e then e else c) := by
      by_cases h : k c < k e
      · rw [if_pos h]
      · rw [if_neg h]; exact le_of_not_lt h
    have hhead := ih (if k c < k e then e else c) _ (List.mem_cons_self _ _)
    rcases List.mem_cons.1 hd with rfl | hd'
    · exact le_trans hc hhead
    · rcases List.mem_cons.1 hd' with rfl | hd''
      · exact le_trans he hhead
      · exact ih _ _ (List.mem_cons_of_mem _ hd'')

theorem pickMin_mem {α β : Type} [LinearOrder β] (k : α → β) :
    ∀ (cs : List α) (c : α), pickMin k c cs ∈ c :: cs := by
  intro cs
  induction cs with
  | nil => intro c; simp [pickMin]
  | cons d cs ih =>
    intro c
    rw [pickMin_cons]
    rcases List.mem_cons.1 (ih (if k d < k c then d else c)) with h | h
    · rw [h]
      by_cases hc : k d < k c
      · rw [if_pos hc]; exact List.mem_cons_of_mem _ (List.mem_cons_self _ _)
      · rw [if_neg hc]; exact List.mem_cons_self _ _
    · exact List.mem_cons_of_mem _ (List.mem_cons_of_mem _ h)

theorem pickMin_le {α β : Type} [LinearOrder β] (k : α → β) :
    ∀ (cs : List α) (c : α) (d : α), d ∈ c :: cs → k (pickMin k c cs) ≤ k d := by
  intro cs
  induction cs with
  | nil => intro c d hd; simp at hd; subst hd; simp [pickMin]
  | cons e cs ih =>
    intro c d hd
    rw [pickMin_cons]
    have hc : k (if k e < k c then e else c) ≤ k c := by
      by_cases h : k e < k c
      · rw [if_pos h]; exact le_of_lt h
      · rw [if_neg h]
    have he : k (if k e < k c then e else c) ≤ k e := by
      by_cases h : k e < k c
      · rw [if_pos h]
      · rw [if_neg h]; exact le_of_not_lt h
    have hhead := ih (if k e < k c then e else c) _ (List.mem_cons_self _ _)
    rcases List.mem_cons.1 hd with rfl | hd'
    · exact le_trans hhead hc
    · rcases List.mem_cons.1 hd' with rfl | hd''
      · exact le_trans hhead he
      · exact ih _ _ (List.mem_cons_of_mem _ hd'')

/-- On a list whose secondary key `k2` is non-increasing left to right,
`pickMax` (= first maximum of `k`) also maximises `k2` among the elements
whose `k`-key ties with the maximum. -/
theorem pickMax_tie {α β γ : Type} [LinearOrder β] [LinearOrder γ] (k : α → β) (k2 : α → γ) :
    ∀ (cs : List α) (c : α),
      (c :: cs).Pairwise (fun a b => k2 b ≤ k2 a) →
      ∀ d ∈ c :: cs, k d = k (pickMax k c cs) → k2 d ≤ k2 (pickMax k c cs) := by
  intro cs
  induction cs with
  | nil => intro c _ d hd _; simp at hd; subst hd; simp [pickMax]
  | cons e cs ih =>
    intro c hpw d hd hk
    have h1 := List.pairwise_cons.1 hpw
    have hce : k2 e ≤ k2 c := h1.1 e (List.mem_cons_self _ _)
    have h2 := List.pairwise_cons.1 h1.2
    rw [pickMax_cons] at hk ⊢
    by_cases h : k c < k e
    · rw [if_pos h] at hk ⊢
      have hmax : k e ≤ k (pickMax k e cs) := pickMax_le k cs e e (List.mem_cons_self _ _)
      rcases List.mem_cons.1 hd with rfl | hd'
      · exact absurd hk (ne_of_lt (lt_of_lt_of_le h hmax))
      · exact ih e h1.2 d hd' hk
    · rw [if_neg h] at hk ⊢
      have hpw' : (c :: cs).Pairwise (fun a b => k2 b ≤ k2 a) :=
        List.pairwise_cons.2 ⟨fun x hx => le_trans (h2.1 x hx) hce, h2.2⟩
      rcases List.mem_cons.1 hd with rfl | hd'
      · exact ih d hpw' d (List.mem_cons_self _ _) hk
      · rcases List.mem_cons.1 hd' with rfl | hd''
        · -- d = e : its key ties the maximum, so c's key ties it too
          have hkec : k d ≤ k c := le_of_not_lt h
          have hkc : k c ≤ k (pickMax k c cs) := pickMax_le k cs c c (List.mem_cons_self _ _)
          have hkceq : k c = k (pickMax k c cs) :=
            le_antisymm hkc (by rw [← hk]; exact hkec)
          exact le_trans hce (ih c hpw' c (List.mem_cons_self _ _) hkceq)
        · exact ih c hpw' d (List.mem_cons_of_mem _ hd'') hk

/-- The two ways the code writes the parabolic offset are the same rational
function wherever the shared denominator is nonzero. -/
theorem delta_offset_eq (a b c : ℚ) (h : a - 2 * b + c ≠ 0) :
    (1/2) * (a - c) / (a - 2 * b + c) = (c - a) / (2 * (2 * b - a - c)) := by
  have h2 : 2 * (2 * b - a - c) ≠ 0 := by intro hh; apply h; linarith
  field_simp
  ring

/-- C6: Parabolic sub-bin refinement: for every interior peak bin with
neighbor magnitudes `(y1, y2, y3)`, the refined frequency equals
`freq_at_peak + delta * bin_width` with `delta = (y1 - y3) / (2 * (y1 - 2*y2 + y3))`;
when the denominator `y1 - 2*y2 + y3` vanishes the unrefined bin frequency is
returned.  For `(8, 10, 8)` the offset is 0, and for `(6, 10, 9)` it is
positive, shifting the result toward the larger neighbor `y3`. -/
theorem c6_parabolic_refinement :
    (∀ (freqs mags : List ℚ) (idx : ℕ), 0 < idx → idx + 1 < mags.length →
      (mags.getD (idx - 1) 0 - 2 * mags.getD idx 0 + mags.getD (idx + 1) 0 ≠ 0 →
        V3.parabolic_interpolation freqs mags idx =
          freqs.getD idx 0 +
            ((1/2) * (mags.getD (idx - 1) 0 - mags.getD (idx + 1) 0) /
              (mags.getD (idx - 1) 0 - 2 * mags.getD idx 0 + mags.getD (idx + 1) 0)) *
            (freqs.getD 1 0 - freqs.getD 0 0)) ∧
      (mags.getD (idx - 1) 0 - 2 * mags.getD idx 0 + mags.getD (idx + 1) 0 = 0 →
        V3.parabolic_interpolation freqs mags idx = freqs.getD idx 0)) ∧
    V3.parabolic_interpolation [100, 101, 102] [8, 10, 8] 1 = 101 ∧
    V3.parabolic_interpolation [100, 101, 102] [6, 10, 9] 1 = 101 + 3/10 ∧
    (0 : ℚ) < 3/10 := by
  refine ⟨?_, by with_unfolding_all decide, by with_unfolding_all decide,
    by with_unfolding_all decide⟩
  intro freqs mags idx h0 h1
  constructor
  · intro hne
    rw [V3.parabolic_interpolation, if_neg (by omega), if_neg hne]
  · intro heq
    rw [V3.parabolic_interpolation, if_neg (by omega), if_pos heq]

/-- Witness for C6 at a concrete interior bin. -/
theorem c6_parabolic_refinement_witness :
    0 < 1 ∧ 1 + 1 < ([8, 10, 8] : List ℚ).length ∧
      (([8, 10, 8] : List ℚ).getD 0 0 - 2 * ([8, 10, 8] : List ℚ).getD 1 0 +
          ([8, 10, 8] : List ℚ).getD 2 0 ≠ 0 →
        V3.parabolic_interpolation [100, 101, 102] [8, 10, 8] 1 =
          ([100, 101, 102] : List ℚ).getD 1 0 +
            ((1/2) * (([8, 10, 8] : List ℚ).getD 0 0 - ([8, 10, 8] : List ℚ).getD 2 0) /
              (([8, 10, 8] : List ℚ).getD 0 0 - 2 * ([8, 10, 8] : List ℚ).getD 1 0 +
                ([8, 10, 8] : List ℚ).getD 2 0)) *
            (([100, 101, 102] : List ℚ).getD 1 0 - ([100, 101, 102] : List ℚ).getD 0 0)) :=
  ⟨by with_unfolding_all decide, by with_unfolding_all decide,
    ((c6_parabolic_refinement.1 [100, 101, 102] [8, 10, 8] 1
      (by with_unfolding_all decide) (by with_unfolding_all decide)).1)⟩

/-- C10: the three parabolic-refinement code paths agree: for every interior
peak bin, `belt_analyzer_v3.parabolic_interpolation` and the two inline
refinements of `belt_sweep_analyzer` (`_extract_peaks` and
`analyze_sweep_csv`) give identical refined frequencies whenever the
denominator `a - 2b + c` is nonzero, and all three return the unrefined bin
frequency when it is zero. -/
theorem c10_refinement_paths_agree :
    ∀ (freqs psd : List ℚ) (idx : ℕ), freqs.length = psd.length →
      0 < idx → idx + 1 < psd.length →
      (psd.getD (idx - 1) 0 - 2 * psd.getD idx 0 + psd.getD (idx + 1) 0 ≠ 0 →
        V3.parabolic_interpolation freqs psd idx = Sweep.refineExtract freqs psd idx ∧
        Sweep.refineExtract freqs psd idx = Sweep.refineCsv freqs psd idx) ∧
      (psd.getD (idx - 1) 0 - 2 * psd.getD idx 0 + psd.getD (idx + 1) 0 = 0 →
        V3.parabolic_interpolation freqs psd idx = freqs.getD idx 0 ∧
        Sweep.refineExtract freqs psd idx = freqs.getD idx 0 ∧
        Sweep.refineCsv freqs psd idx = freqs.getD idx 0) := by
  intro freqs psd idx hlen h0 h1
  have hflen : 1 < freqs.length := by omega
  constructor
  · intro hne
    have hne2 : 2 * (2 * psd.getD idx 0 - psd.getD (idx - 1) 0 - psd.getD (idx + 1) 0) ≠ 0 := by
      intro h; apply hne; linarith
    have e1 : V3.parabolic_interpolation freqs psd idx =
        freqs.getD idx 0 +
          (1/2) * (psd.getD (idx - 1) 0 - psd.getD (idx + 1) 0) /
            (psd.getD (idx - 1) 0 - 2 * psd.getD idx 0 + psd.getD (idx + 1) 0) *
          (freqs.getD 1 0 - freqs.getD 0 0) := by
      rw [V3.parabolic_interpolation, if_neg (by omega), if_neg hne]
    have e2 : Sweep.refineExtract freqs psd idx =
        freqs.getD idx 0 +
          (psd.getD (idx + 1) 0 - psd.getD (idx - 1) 0) /
            (2 * (2 * psd.getD idx 0 - psd.getD (idx - 1) 0 - psd.getD (idx + 1) 0)) *
          (freqs.getD 1 0 - freqs.getD 0 0) := by
      rw [Sweep.refineExtract, if_pos ⟨h0, h1⟩, if_pos hne2, if_pos hflen]
    have e3 : Sweep.refineCsv freqs psd idx =
        freqs.getD idx 0 +
          (psd.getD (idx + 1) 0 - psd.getD (idx - 1) 0) /
            (2 * (2 * psd.getD idx 0 - psd.getD (idx - 1) 0 - psd.getD (idx + 1) 0)) *
          (freqs.getD 1 0 - freqs.getD 0 0) := by
      rw [Sweep.refineCsv, if_pos ⟨h0, h1⟩, if_pos hne2, if_pos hflen]
    refine ⟨?_, by rw [e2, e3]⟩
    rw [e1, e2, delta_offset_eq _ _ _ hne]
  · intro heq
    have heq2 : 2 * (2 * psd.getD idx 0 - psd.getD (idx - 1) 0 - psd.getD (idx + 1) 0) = 0 := by
      linarith
    refine ⟨?_, ?_, ?_⟩
    · rw [V3.parabolic_interpolation, if_neg (by omega), if_pos heq]
    · rw [Sweep.refineExtract, if_pos ⟨h0, h1⟩, if_neg (by simpa using heq2)]
    · rw [Sweep.refineCsv, if_pos ⟨h0, h1⟩, if_neg (by simpa using heq2)]

/-- Witness for C10 at a concrete interior bin with nonzero denominator. -/
theorem c10_refinement_paths_agree_witness :
    ([100, 101, 102] : List ℚ).length = ([6, 10, 9] : List ℚ).length ∧ 0 < 1 ∧
      1 + 1 < ([6, 10, 9] : List ℚ).length ∧
      (([6, 10, 9] : List ℚ).getD 0 0 - 2 * ([6, 10, 9] : List ℚ).getD 1 0 +
          ([6, 10, 9] : List ℚ).getD 2 0 ≠ 0 →
        V3.parabolic_interpolation [100, 101, 102] [6, 10, 9] 1 =
            Sweep.refineExtract [100, 101, 102] [6, 10, 9] 1 ∧
          Sweep.refineExtract [100, 101, 102] [6, 10, 9] 1 =
            Sweep.refineCsv [100, 101, 102] [6, 10, 9] 1) :=
  ⟨by with_unfolding_all decide, by with_unfolding_all decide, by with_unfolding_all decide,
    (c10_refinement_paths_agree [100, 101, 102] [6, 10, 9] 1 (by with_unfolding_all decide)
      (by with_unfolding_all decide) (by with_unfolding_all decide)).1⟩

/-- C1: in the scoring step of `analyze_pluck`, every candidate's integer
score is the sum of the Q-factor points (3 if > 10, else 1 if > 5), the SNR
points (2 if > 5, else 1 if > 3), 3 for a decaying profile, and 2 for a
frequency in the plausible 80–140 Hz belt range; the reported candidate
maximises this score with ties broken by higher SNR (the candidate list is
built in magnitude-descending order with `snr = mag / noise_floor`, and the
stable descending sort leaves the first maximum in front); the confidence is
HIGH iff the winning score is ≥ 6, MEDIUM iff it is in [4, 6), LOW iff it is
< 4. -/
theorem c1_pluck_scoring :
    ∀ (c : BeltPluck.Candidate) (cs : List BeltPluck.Candidate) (nf : ℚ),
      0 < nf →
      (∀ d ∈ c :: cs, d.snr = d.mag / nf) →
      (c :: cs).Pairwise (fun a b => b.mag ≤ a.mag) →
      ∀ b, BeltPluck.selectBest (c :: cs) = some b →
        b ∈ c :: cs ∧
        (∀ d ∈ c :: cs, BeltPluck.score d ≤ BeltPluck.score b) ∧
        (∀ d ∈ c :: cs, BeltPluck.score d = BeltPluck.score b → d.snr ≤ b.snr) ∧
        BeltPluck.score b =
          (if 10 < b.q_factor then 3 else if 5 < b.q_factor then 1 else 0)
          + (if 5 < b.snr then 2 else if 3 < b.snr then 1 else 0)
          + (if b.is_decaying.getD false then 3 else 0)
          + (if 80 ≤ b.freq ∧ b.freq ≤ 140 then 2 else 0) ∧
        (BeltPluck.confidenceOfScore (BeltPluck.score b) = .HIGH ↔ 6 ≤ BeltPluck.score b) ∧
        (BeltPluck.confidenceOfScore (BeltPluck.score b) = .MEDIUM ↔
          4 ≤ BeltPluck.score b ∧ BeltPluck.score b < 6) ∧
        (BeltPluck.confidenceOfScore (BeltPluck.score b) = .LOW ↔ BeltPluck.score b < 4) := by
  intro c cs nf hnf hsnr hmag b hb
  have hbe : b = pickMax BeltPluck.score c cs := by
    simpa [BeltPluck.selectBest] using hb.symm
  subst hbe
  have hsnrpw : (c :: cs).Pairwise (fun a b => b.snr ≤ a.snr) := by
    refine List.Pairwise.imp_of_mem ?_ hmag
    intro a b ha hb hle
    rw [hsnr a ha, hsnr b hb]
    gcongr
  refine ⟨pickMax_mem _ cs c, fun d hd => pickMax_le _ cs c d hd,
    fun d hd hkd => pickMax_tie _ _ cs c hsnrpw d hd hkd, rfl, ?_, ?_, ?_⟩
  · unfold BeltPluck.confidenceOfScore
    by_cases h6 : 6 ≤ BeltPluck.score (pickMax BeltPluck.score c cs)
    · simp [h6]
    · by_cases h4 : 4 ≤ BeltPluck.score (pickMax BeltPluck.score c cs) <;> simp [h6, h4]
  · unfold BeltPluck.confidenceOfScore
    by_cases h6 : 6 ≤ BeltPluck.score (pickMax BeltPluck.score c cs)
    · simp [h6]; try omega
    · by_cases h4 : 4 ≤ BeltPluck.score (pickMax BeltPluck.score c cs) <;>
        simp [h6, h4] <;> try omega
  · unfold BeltPluck.confidenceOfScore
    by_cases h6 : 6 ≤ BeltPluck.score (pickMax BeltPluck.score c cs)
    · simp [h6]; try omega
    · by_cases h4 : 4 ≤ BeltPluck.score (pickMax BeltPluck.score c cs) <;>
        simp [h6, h4] <;> try omega

/-- Witness for C1 on a concrete two-candidate list (noise floor 2). -/
theorem c1_pluck_scoring_witness :
    (0 : ℚ) < 2 ∧
    (∀ d ∈ [(⟨105, 10, 5, 12, some true⟩ : BeltPluck.Candidate),
        ⟨90, 8, 4, 6, some false⟩], d.snr = d.mag / 2) ∧
    ([(⟨105, 10, 5, 12, some true⟩ : BeltPluck.Candidate),
        ⟨90, 8, 4, 6, some false⟩].Pairwise (fun a b => b.mag ≤ a.mag)) ∧
    (BeltPluck.selectBest [(⟨105, 10, 5, 12, some true⟩ : BeltPluck.Candidate),
        ⟨90, 8, 4, 6, some false⟩] = some ⟨105, 10, 5, 12, some true⟩) ∧
    ((⟨105, 10, 5, 12, some true⟩ : BeltPluck.Candidate) ∈
        [(⟨105, 10, 5, 12, some true⟩ : BeltPluck.Candidate), ⟨90, 8, 4, 6, some false⟩] ∧
      (∀ d ∈ [(⟨105, 10, 5, 12, some true⟩ : BeltPluck.Candidate), ⟨90, 8, 4, 6, some false⟩],
        BeltPluck.score d ≤ BeltPluck.score ⟨105, 10, 5, 12, some true⟩) ∧
      (∀ d ∈ [(⟨105, 10, 5, 12, some true⟩ : BeltPluck.Candidate), ⟨90, 8, 4, 6, some false⟩],
        BeltPluck.score d = BeltPluck.score ⟨105, 10, 5, 12, some true⟩ →
          d.snr ≤ (⟨105, 10, 5, 12, some true⟩ : BeltPluck.Candidate).snr) ∧
      BeltPluck.score ⟨105, 10, 5, 12, some true⟩ =
        (if 10 < (⟨105, 10, 5, 12, some true⟩ : BeltPluck.Candidate).q_factor then 3
          else if 5 < (⟨105, 10, 5, 12, some true⟩ : BeltPluck.Candidate).q_factor then 1 else 0)
        + (if 5 < (⟨105, 10, 5, 12, some true⟩ : BeltPluck.Candidate).snr then 2
          else if 3 < (⟨105, 10, 5, 12, some true⟩ : BeltPluck.Candidate).snr then 1 else 0)
        + (if (⟨105, 10, 5, 12, some true⟩ : BeltPluck.Candidate).is_decaying.getD false then 3
          else 0)
        + (if 80 ≤ (⟨105, 10, 5, 12, some true⟩ : BeltPluck.Candidate).freq ∧
            (⟨105, 10, 5, 12, some true⟩ : BeltPluck.Candidate).freq ≤ 140 then 2 else 0) ∧
      (BeltPluck.confidenceOfScore (BeltPluck.score ⟨105, 10, 5, 12, some true⟩) = .HIGH ↔
        6 ≤ BeltPluck.score ⟨105, 10, 5, 12, some true⟩) ∧
      (BeltPluck.confidenceOfScore (BeltPluck.score ⟨105, 10, 5, 12, some true⟩) = .MEDIUM ↔
        4 ≤ BeltPluck.score ⟨105, 10, 5, 12, some true⟩ ∧
          BeltPluck.score ⟨105, 10, 5, 12, some true⟩ < 6) ∧
      (BeltPluck.confidenceOfScore (BeltPluck.score ⟨105, 10, 5, 12, some true⟩) = .LOW ↔
        BeltPluck.score ⟨105, 10, 5, 12, some true⟩ < 4)) := by
  refine ⟨by norm_num, by with_unfolding_all decide, by with_unfolding_all decide,
    by with_unfolding_all decide, ?_⟩
  exact c1_pluck_scoring ⟨105, 10, 5, 12, some true⟩ [⟨90, 8, 4, 6, some false⟩] 2
    (by norm_num) (by with_unfolding_all decide) (by with_unfolding_all decide)
    ⟨105, 10, 5, 12, some true⟩ (by with_unfolding_all decide)

/-- C8 counterexample: with a 105 Hz fundamental at magnitude 10 and a 210 Hz
harmonic at magnitude 11, the harmonic is at 110% ≥ 80% of the fundamental's
strength, so the filter keeps it and the strongest-valid-peak selection
reports 210 Hz, not the 105 Hz the claim demands. -/
theorem c8_harmonic_example_counterexample :
    WebAB.best_peak [(105, 10), (210, 11)] = some (210, 11) ∧
    WebAB.isHarmonicAt [(105, 10), (210, 11)] 1 = false ∧
    ((210, 11) : ℚ × ℚ).1 ≠ 105 := by
  refine ⟨by with_unfolding_all decide, by with_unfolding_all decide,
    by with_unfolding_all decide⟩

/-- C8 (amended): a peak is discarded iff its frequency is within 5 Hz of a
ratio (0.5, 2, 3, 0.33, 1.5) of another peak's frequency and its magnitude is
below 80% of that peak's; the reported peak is the strongest among the
surviving peaks.  Consequently a 210 Hz harmonic is only discarded in favour
of a 105 Hz fundamental when it is weaker than 80% of it: with magnitudes
10 and 7 the code selects 105 Hz. -/
theorem c8_harmonic_rejection :
    (∀ (peaks : List (ℚ × ℚ)) (i : ℕ), i < peaks.length →
      (WebAB.isHarmonicAt peaks i = true ↔
        ∃ j, j < peaks.length ∧ (i ≠ j ∧ ∃ r ∈ WebAB.harmonicRatios,
          |(peaks.getD i (0, 0)).1 - (peaks.getD j (0, 0)).1 * r| < 5 ∧
          (peaks.getD i (0, 0)).2 < (peaks.getD j (0, 0)).2 * (4/5)))) ∧
    (∀ (peaks : List (ℚ × ℚ)) (p : ℚ × ℚ), WebAB.best_peak peaks = some p →
      p ∈ WebAB.valid_peaks peaks ∧ ∀ q ∈ WebAB.valid_peaks peaks, q.2 ≤ p.2) ∧
    WebAB.best_peak [(105, 10), (210, 7)] = some (105, 10) := by
  refine ⟨?_, ?_, by with_unfolding_all decide⟩
  · intro peaks i _
    unfold WebAB.isHarmonicAt
    simp [List.any_eq_true, List.mem_range, Bool.and_eq_true, decide_eq_true_eq]
  · intro peaks p hp
    unfold WebAB.best_peak at hp
    rcases hv : WebAB.valid_peaks peaks with _ | ⟨c, cs⟩
    · rw [hv] at hp; exact absurd hp (by simp)
    · rw [hv] at hp
      have hpe : p = pickMax Prod.snd c cs := by simpa using hp.symm
      subst hpe
      exact ⟨pickMax_mem _ cs c, fun q hq => pickMax_le Prod.snd cs c q hq⟩

/-- Witness for C8 on the corrected harmonic-rejection example. -/
theorem c8_harmonic_rejection_witness :
    1 < ([(105, 10), (210, 7)] : List (ℚ × ℚ)).length ∧
    (WebAB.isHarmonicAt [(105, 10), (210, 7)] 1 = true ↔
      ∃ j, j < ([(105, 10), (210, 7)] : List (ℚ × ℚ)).length ∧ (1 ≠ j ∧
        ∃ r ∈ WebAB.harmonicRatios,
          |(([(105, 10), (210, 7)] : List (ℚ × ℚ)).getD 1 (0, 0)).1 -
            (([(105, 10), (210, 7)] : List (ℚ × ℚ)).getD j (0, 0)).1 * r| < 5 ∧
          (([(105, 10), (210, 7)] : List (ℚ × ℚ)).getD 1 (0, 0)).2 <
            (([(105, 10), (210, 7)] : List (ℚ × ℚ)).getD j (0, 0)).2 * (4/5))) ∧
    WebAB.best_peak [(105, 10), (210, 7)] = some (105, 10) ∧
    ((105, 10) : ℚ × ℚ) ∈ WebAB.valid_peaks [(105, 10), (210, 7)] ∧
    (∀ q ∈ WebAB.valid_peaks [(105, 10), (210, 7)], q.2 ≤ ((105, 10) : ℚ × ℚ).2) := by
  have h2 := c8_harmonic_rejection.2.1 [(105, 10), (210, 7)] (105, 10)
    (by with_unfolding_all decide)
  exact ⟨by with_unfolding_all decide,
    c8_harmonic_rejection.1 [(105, 10), (210, 7)] 1 (by with_unfolding_all decide),
    by with_unfolding_all decide, h2.1, h2.2⟩

/-- C9 counterexample: a buffer with 499 parseable data rows (below the
500-row sweep minimum) padded with 3 malformed lines makes the non-comment
line count reach 502, so `analyze_sweep_csv` reports the generic load
failure, not the insufficient-data error the claim requires for every
below-minimum buffer. -/
theorem c9_insufficient_data_counterexample :
    (Sweep.parsedRows Sweep.c9lines).length = 499 ∧
    Sweep.countedLines Sweep.c9lines = 502 ∧
    Sweep.analyze_sweep_entry Sweep.c9lines (fun _ => Sweep.FAIL .noBinsInRange) =
      Sweep.FAIL .failedToLoad := by
  refine ⟨by with_unfolding_all decide, by with_unfolding_all decide,
    by with_unfolding_all decide⟩

/-- C9 (amended): each entry point proceeds only at or above its per-variant
minimum parsed-row count (512 scoring pluck, 1000 legacy pluck, 500 sweep).
Below the minimum each returns an error result with every numeric field
`None`; the pluck variants always report the insufficient-samples error,
while the sweep analyzer reports the insufficient-data error exactly when the
buffer's non-comment, non-blank line count is also below 500 (in particular
for any 10-row buffer), and a generic load failure otherwise. -/
theorem c9_insufficient_data :
    (∀ (data : List (ℚ × ℚ × ℚ)) (rest : List (ℚ × ℚ × ℚ) → BeltPluck.PluckOut),
      (data.length < 512 →
        BeltPluck.analyze_pluck_entry data rest = BeltPluck.insufficientResult data.length ∧
        (BeltPluck.insufficientResult data.length).frequency = none ∧
        (BeltPluck.insufficientResult data.length).snr = none ∧
        (BeltPluck.insufficientResult data.length).q_factor = none ∧
        (BeltPluck.insufficientResult data.length).confidence = none ∧
        (BeltPluck.insufficientResult data.length).sample_rate = none ∧
        (BeltPluck.insufficientResult data.length).error = some .insufficientSamples) ∧
      (512 ≤ data.length → BeltPluck.analyze_pluck_entry data rest = rest data)) ∧
    (∀ (data : List (ℚ × ℚ × ℚ)) (rest : List (ℚ × ℚ × ℚ) → V3.V3Out),
      (data.length < 1000 →
        V3.analyze_pluck_event_entry data rest =
          ⟨none, none, none, none, some .insufficientSamples⟩) ∧
      (1000 ≤ data.length → V3.analyze_pluck_event_entry data rest = rest data)) ∧
    (∀ (ls : List Sweep.Line) (rest : List (ℚ × ℚ × ℚ) → Sweep.SweepOut),
      ((Sweep.parsedRows ls).length < 500 →
        (Sweep.countedLines ls < 500 →
          Sweep.analyze_sweep_entry ls rest =
            Sweep.FAIL (.insufficientData (Sweep.countedLines ls))) ∧
        (500 ≤ Sweep.countedLines ls →
          Sweep.analyze_sweep_entry ls rest = Sweep.FAIL .failedToLoad) ∧
        (Sweep.analyze_sweep_entry ls rest).frequency = none ∧
        (Sweep.analyze_sweep_entry ls rest).confidence = none ∧
        (Sweep.analyze_sweep_entry ls rest).q_factor = none ∧
        (Sweep.analyze_sweep_entry ls rest).snr = none ∧
        (Sweep.analyze_sweep_entry ls rest).sample_rate = none ∧
        (Sweep.analyze_sweep_entry ls rest).error ≠ none) ∧
      (500 ≤ (Sweep.parsedRows ls).length →
        Sweep.analyze_sweep_entry ls rest = rest (Sweep.parsedRows ls))) := by
  refine ⟨?_, ?_, ?_⟩
  · intro data rest
    constructor
    · intro h
      rw [BeltPluck.analyze_pluck_entry, if_pos h]
      exact ⟨rfl, rfl, rfl, rfl, rfl, rfl, rfl⟩
    · intro h
      rw [BeltPluck.analyze_pluck_entry, if_neg (by omega)]
  · intro data rest
    constructor
    · intro h
      rw [V3.analyze_pluck_event_entry, if_pos h]
    · intro h
      rw [V3.analyze_pluck_event_entry, if_neg (by omega)]
  · intro ls rest
    constructor
    · intro h
      by_cases hc : Sweep.countedLines ls < 500
      · rw [Sweep.analyze_sweep_entry, if_pos h, if_pos hc]
        exact ⟨fun _ => rfl, fun hle => absurd hle (by omega), rfl, rfl, rfl, rfl, rfl,
          by simp [Sweep.FAIL]⟩
      · rw [Sweep.analyze_sweep_entry, if_pos h, if_neg hc]
        exact ⟨fun hlt => absurd hlt hc, fun _ => rfl, rfl, rfl, rfl, rfl, rfl,
          by simp [Sweep.FAIL]⟩
    · intro h
      rw [Sweep.analyze_sweep_entry, if_neg (by omega)]

/-- Witness for C9 on a 10-row buffer at each entry point. -/
theorem c9_insufficient_data_witness :
    ((List.replicate 10 ((0, 0, 0) : ℚ × ℚ × ℚ)).length < 512 ∧
      BeltPluck.analyze_pluck_entry (List.replicate 10 ((0, 0, 0) : ℚ × ℚ × ℚ))
          (fun _ => BeltPluck.insufficientResult 0) =
        BeltPluck.insufficientResult (List.replicate 10 ((0, 0, 0) : ℚ × ℚ × ℚ)).length) ∧
    ((List.replicate 10 ((0, 0, 0) : ℚ × ℚ × ℚ)).length < 1000 ∧
      V3.analyze_pluck_event_entry (List.replicate 10 ((0, 0, 0) : ℚ × ℚ × ℚ))
          (fun _ => ⟨none, none, none, none, none⟩) =
        ⟨none, none, none, none, some .insufficientSamples⟩) ∧
    ((Sweep.parsedRows (List.replicate 10 (Sweep.Line.data 0 0 0))).length < 500 ∧
      Sweep.countedLines (List.replicate 10 (Sweep.Line.data 0 0 0)) < 500 ∧
      Sweep.analyze_sweep_entry (List.replicate 10 (Sweep.Line.data 0 0 0))
          (fun _ => Sweep.FAIL .noBinsInRange) =
        Sweep.FAIL (.insufficientData
          (Sweep.countedLines (List.replicate 10 (Sweep.Line.data 0 0 0))))) := by
  have h1 := (c9_insufficient_data.1 (List.replicate 10 ((0, 0, 0) : ℚ × ℚ × ℚ))
    (fun _ => BeltPluck.insufficientResult 0)).1 (by with_unfolding_all decide)
  have h2 := (c9_insufficient_data.2.1 (List.replicate 10 ((0, 0, 0) : ℚ × ℚ × ℚ))
    (fun _ => ⟨none, none, none, none, none⟩)).1 (by with_unfolding_all decide)
  have h3 := ((c9_insufficient_data.2.2 (List.replicate 10 (Sweep.Line.data 0 0 0))
    (fun _ => Sweep.FAIL .noBinsInRange)).1 (by with_unfolding_all decide)).1
    (by with_unfolding_all decide)
  exact ⟨⟨by with_unfolding_all decide, h1.1⟩, ⟨by with_unfolding_all decide, h2⟩,
    ⟨by with_unfolding_all decide, by with_unfolding_all decide, h3⟩⟩

/-- The reporting entry is one of the per-position entries. -/
theorem reportEntry_mem (per : List (ℚ × Sweep.Chosen)) (h : per ≠ []) :
    Sweep.reportEntry per ∈ per := by
  unfold Sweep.reportEntry
  rcases hf : per.filter (fun p => decide (p.1 = 100)) with _ | ⟨r, rs⟩
  · simp only [hf]
    rcases hp : per with _ | ⟨e, es⟩
    · exact absurd hp h
    · simp only [hp]
      exact pickMin_mem _ es e
  · simp only [hf]
    exact List.mem_of_mem_filter (hf ▸ List.mem_cons_self r rs)

/-- C3 counterexample: a 90 Hz peak injected identically at three positions
is marked structural, yet it is selected as the belt candidate at all three
positions (the calibration window contains no other peak, so the code falls
back from the emptied non-structural set to the full window). -/
theorem c3_structural_exclusion_counterexample :
    (90 : ℚ) ∈ Sweep.structuralList Sweep.c3scans ∧
    (Sweep.analyzeMultiPosition Sweep.c3scans Sweep.c3cal).positionResults.map
        (fun r => r.frequency) = [some 90, some 90, some 90] ∧
    (Sweep.analyzeMultiPosition Sweep.c3scans Sweep.c3cal).frequency = some 90 := by
  refine ⟨by with_unfolding_all decide, by with_unfolding_all decide,
    by with_unfolding_all decide⟩

/-- C3 (amended): every frequency recurring within ±4 Hz in the peak lists of
two distinct positions is marked structural (both members of every matching
cross-position pair enter the structural set), and the calibration-guided
selection never picks a peak within ±4 Hz of a structural frequency — hence
never a structural peak itself — at any position where the structural
exclusion leaves at least one candidate in the window; when the exclusion
empties the window the code falls back to the full window and a structural
peak can be selected. -/
theorem c3_structural_marking_exclusion :
    (∀ (l₁ l₂ l₃ : List Sweep.PosData) (pi pj : Sweep.PosData) (qf rf : ℚ × ℚ),
      qf ∈ pi.peaks → rf ∈ pj.peaks → |qf.1 - rf.1| ≤ Sweep.STRUCT_BIN →
      qf.1 ∈ Sweep.structuralList (l₁ ++ pi :: l₂ ++ pj :: l₃) ∧
      rf.1 ∈ Sweep.structuralList (l₁ ++ pi :: l₂ ++ pj :: l₃)) ∧
    (∀ (sl : List ℚ) (calib : List (ℚ × ℚ)) (pd : Sweep.PosData) (f : ℚ),
      calib ≠ [] → pd.peaks ≠ [] → Sweep.nonStruct sl calib pd ≠ [] →
      (Sweep.selectAtPosition sl calib pd).freq = some f →
      ∀ sf ∈ sl, ¬ |f - sf| ≤ Sweep.STRUCT_BIN) := by
  constructor
  · intro l₁ l₂ l₃ pi pj qf rf hq hr hle
    induction l₁ with
    | nil =>
      simp only [List.nil_append, Sweep.structuralList]
      have hpair : ∀ g ∈ [qf.1, rf.1],
          g ∈ pi.peaks.flatMap fun q =>
            (l₂ ++ pj :: l₃).flatMap fun pjx =>
              pjx.peaks.flatMap fun r =>
                if |q.1 - r.1| ≤ Sweep.STRUCT_BIN then [q.1, r.1] else [] := by
        intro g hg
        refine List.mem_flatMap.2 ⟨qf, hq, ?_⟩
        refine List.mem_flatMap.2 ⟨pj, by simp, ?_⟩
        refine List.mem_flatMap.2 ⟨rf, hr, ?_⟩
        rw [if_pos hle]
        exact hg
      exact ⟨List.mem_append_left _ (hpair _ (by simp)),
        List.mem_append_left _ (hpair _ (by simp))⟩
    | cons p l₁ ih =>
      simp only [List.cons_append, Sweep.structuralList]
      exact ⟨List.mem_append_right _ ih.1, List.mem_append_right _ ih.2⟩
  · intro sl calib pd f hc hp hns hsel sf hsf hdist
    rw [Sweep.selectAtPosition, if_neg (by simp [hc, hp])] at hsel
    rcases he : Sweep.candidatesAt sl calib pd with _ | ⟨c, cs⟩
    · rw [Sweep.candidatesAt, if_neg hns] at he
      exact hns he
    · rw [he] at hsel
      simp only [Option.some.injEq] at hsel
      have hmem : pickMin (fun q => |q.1 - Sweep.interpCal calib pd.y|) c cs ∈ c :: cs :=
        pickMin_mem _ cs c
      rw [← he, Sweep.candidatesAt, if_neg hns, Sweep.nonStruct] at hmem
      have hflt := (List.mem_filter.1 hmem).2
      rw [Bool.not_eq_true'] at hflt
      have hall := List.any_eq_false.1 hflt sf hsf
      rw [decide_eq_true_eq] at hall
      rw [← hsel] at hdist
      exact hall hdist

/-- Witness for C3: concrete marking instance (two single-peak positions) and
a concrete position where a non-structural in-window peak exists and the
selected frequency stays clear of the structural set. -/
theorem c3_structural_marking_exclusion_witness :
    ((90, 1) ∈ (Sweep.mkPos 80 [(90, 1)]).peaks ∧
      (90, 1) ∈ (Sweep.mkPos 100 [(90, 1)]).peaks ∧
      |((90, 1) : ℚ × ℚ).1 - ((90, 1) : ℚ × ℚ).1| ≤ Sweep.STRUCT_BIN ∧
      ((90 : ℚ), (1 : ℚ)).1 ∈ Sweep.structuralList
        ([] ++ Sweep.mkPos 80 [(90, 1)] :: [] ++ Sweep.mkPos 100 [(90, 1)] :: [])) ∧
    (([((80 : ℚ), (120 : ℚ))] : List (ℚ × ℚ)) ≠ [] ∧
      (Sweep.mkPos 80 [(120, 1)]).peaks ≠ [] ∧
      Sweep.nonStruct [90] [(80, 120)] (Sweep.mkPos 80 [(120, 1)]) ≠ [] ∧
      (Sweep.selectAtPosition [90] [(80, 120)] (Sweep.mkPos 80 [(120, 1)])).freq =
        some 120 ∧
      ∀ sf ∈ [(90 : ℚ)], ¬ |(120 : ℚ) - sf| ≤ Sweep.STRUCT_BIN) := by
  constructor
  · refine ⟨by with_unfolding_all decide, by with_unfolding_all decide,
      by with_unfolding_all decide, ?_⟩
    exact (c3_structural_marking_exclusion.1 [] [] [] (Sweep.mkPos 80 [(90, 1)])
      (Sweep.mkPos 100 [(90, 1)]) (90, 1) (90, 1) (by with_unfolding_all decide)
      (by with_unfolding_all decide) (by with_unfolding_all decide)).1
  · refine ⟨by with_unfolding_all decide, by with_unfolding_all decide,
      by with_unfolding_all decide, by with_unfolding_all decide, ?_⟩
    exact c3_structural_marking_exclusion.2 [90] [(80, 120)] (Sweep.mkPos 80 [(120, 1)])
      120 (by with_unfolding_all decide) (by with_unfolding_all decide)
      (by with_unfolding_all decide) (by with_unfolding_all decide)

/-- C4: with calibration supplied and a non-empty peak list, the expected
frequency is the linear interpolation of the calibration points at the
position (clamped at the ends, exactly linear between adjacent points), and
whenever the candidate window (non-structural peaks within ±12 Hz, falling
back to the full ±12 Hz window when exclusion empties it) is non-empty, the
selected peak is one of its members minimising the absolute distance to the
expectation, with the reported SNR derived from its normalised power
(`power * 20`, rounded to one decimal) rather than from its rank by power. -/
theorem c4_calibration_guided_selection :
    (∀ (x1 v1 x2 v2 : ℚ) (rest : List (ℚ × ℚ)) (y : ℚ),
      x1 ≤ y → y ≤ x2 → x1 < x2 →
      Sweep.interpCal ((x1, v1) :: (x2, v2) :: rest) y =
        v1 + (v2 - v1) * (y - x1) / (x2 - x1)) ∧
    (∀ (sl : List ℚ) (calib : List (ℚ × ℚ)) (pd : Sweep.PosData),
      calib ≠ [] → pd.peaks ≠ [] → Sweep.candidatesAt sl calib pd ≠ [] →
      ∃ b, b ∈ Sweep.candidatesAt sl calib pd ∧
        (Sweep.selectAtPosition sl calib pd).freq = some b.1 ∧
        (Sweep.selectAtPosition sl calib pd).snr = some (round1 (b.2 * 20)) ∧
        ∀ d ∈ Sweep.candidatesAt sl calib pd,
          |b.1 - Sweep.interpCal calib pd.y| ≤ |d.1 - Sweep.interpCal calib pd.y|) := by
  constructor
  · intro x1 v1 x2 v2 rest y h1 h2 _
    simp only [Sweep.interpCal]
    by_cases hy : y ≤ x1
    · rw [if_pos hy]
      have hyx : y = x1 := le_antisymm hy h1
      subst hyx
      simp
    · rw [if_neg hy, if_pos h2]
  · intro sl calib pd hc hp hca
    rcases he : Sweep.candidatesAt sl calib pd with _ | ⟨c, cs⟩
    · exact absurd he hca
    · refine ⟨pickMin (fun q => |q.1 - Sweep.interpCal calib pd.y|) c cs, ?_, ?_, ?_, ?_⟩
      · exact pickMin_mem _ cs c
      · rw [Sweep.selectAtPosition, if_neg (by simp [hc, hp])]
        simp only [he]
      · rw [Sweep.selectAtPosition, if_neg (by simp [hc, hp])]
        simp only [he]
      · intro d hd
        simpa using pickMin_le (fun q => |q.1 - Sweep.interpCal calib pd.y|) cs c d hd

/-- Witness for C4: interpolation between (80, 100) and (120, 110) at
Y = 90, and a concrete selection where the peak closest to the expectation
beats a stronger peak further away. -/
theorem c4_calibration_guided_selection_witness :
    ((80 : ℚ) ≤ 90 ∧ (90 : ℚ) ≤ 120 ∧ (80 : ℚ) < 120 ∧
      Sweep.interpCal [(80, 100), (120, 110)] 90 =
        100 + (110 - 100) * (90 - 80) / (120 - 80)) ∧
    (([((80 : ℚ), (100 : ℚ))] : List (ℚ × ℚ)) ≠ [] ∧
      (Sweep.mkPos 80 [(95, 5), (102, 1)]).peaks ≠ [] ∧
      Sweep.candidatesAt [] [(80, 100)] (Sweep.mkPos 80 [(95, 5), (102, 1)]) ≠ [] ∧
      ∃ b, b ∈ Sweep.candidatesAt [] [(80, 100)] (Sweep.mkPos 80 [(95, 5), (102, 1)]) ∧
        (Sweep.selectAtPosition [] [(80, 100)] (Sweep.mkPos 80 [(95, 5), (102, 1)])).freq =
          some b.1 ∧
        (Sweep.selectAtPosition [] [(80, 100)] (Sweep.mkPos 80 [(95, 5), (102, 1)])).snr =
          some (round1 (b.2 * 20)) ∧
        ∀ d ∈ Sweep.candidatesAt [] [(80, 100)] (Sweep.mkPos 80 [(95, 5), (102, 1)]),
          |b.1 - Sweep.interpCal [(80, 100)] (Sweep.mkPos 80 [(95, 5), (102, 1)]).y| ≤
          |d.1 - Sweep.interpCal [(80, 100)] (Sweep.mkPos 80 [(95, 5), (102, 1)]).y|) := by
  constructor
  · refine ⟨by norm_num, by norm_num, by norm_num, ?_⟩
    exact c4_calibration_guided_selection.1 80 100 120 110 [] 90 (by norm_num)
      (by norm_num) (by norm_num)
  · refine ⟨by with_unfolding_all decide, by with_unfolding_all decide,
      by with_unfolding_all decide, ?_⟩
    exact c4_calibration_guided_selection.2 [] [(80, 100)]
      (Sweep.mkPos 80 [(95, 5), (102, 1)]) (by with_unfolding_all decide)
      (by with_unfolding_all decide) (by with_unfolding_all decide)

/-- C5 counterexample: with selected frequencies 100 Hz and 110.25 Hz the
reported `peak_mobility` is 10.2 (the spread rounded to one decimal), not the
exact spread 10.25 the claim asserts. -/
theorem c5_mobility_counterexample :
    Sweep.selectedFreqs (Sweep.perPosition Sweep.c5scans Sweep.c5cal) = [100, 441/4] ∧
    listMax [(100 : ℚ), 441/4] - listMin [(100 : ℚ), 441/4] = 41/4 ∧
    (Sweep.analyzeMultiPosition Sweep.c5scans Sweep.c5cal).peakMobility = 51/5 ∧
    ((51 : ℚ)/5) ≠ 41/4 := by
  refine ⟨by with_unfolding_all decide, by with_unfolding_all decide,
    by with_unfolding_all decide, by with_unfolding_all decide⟩

/-- C5 (amended): whenever the reporting position (Y = 100, falling back to
the position closest to it) yields a selected frequency, the reported
`peak_mobility` is the spread of the selected per-position frequencies
rounded to one decimal (ties to even), and the classification is `belt` iff
that rounded mobility reaches 40% of the calibration-implied expected
mobility (spread of the calibration frequencies interpolated at the scanned
positions) when a calibration is supplied, or 10 Hz absolute without one;
otherwise it is `ambiguous` (never `structural_only` on this path). -/
theorem c5_mobility_classification :
    ∀ (scans : List Sweep.PosData) (calib : List (ℚ × ℚ)),
      2 ≤ scans.length →
      ∀ bf, (Sweep.reportEntry (Sweep.perPosition scans calib)).2.freq = some bf →
        (Sweep.analyzeMultiPosition scans calib).peakMobility =
          round1 (listMax (Sweep.selectedFreqs (Sweep.perPosition scans calib)) -
            listMin (Sweep.selectedFreqs (Sweep.perPosition scans calib))) ∧
        ((Sweep.analyzeMultiPosition scans calib).classification =
            Sweep.Classification.belt ↔
          (if calib ≠ [] then
            Sweep.expectedMobility scans calib * (2/5) ≤
              (Sweep.analyzeMultiPosition scans calib).peakMobility
          else 10 ≤ (Sweep.analyzeMultiPosition scans calib).peakMobility)) ∧
        ((Sweep.analyzeMultiPosition scans calib).classification =
            Sweep.Classification.belt ∨
          (Sweep.analyzeMultiPosition scans calib).classification =
            Sweep.Classification.ambiguous) := by
  intro scans calib h2 bf hbf
  have hlen : ¬ scans.length < 2 := by omega
  have hper_len : (Sweep.perPosition scans calib).length = scans.length := by
    simp [Sweep.perPosition, Sweep.sortedScans]
  have hper_ne : Sweep.perPosition scans calib ≠ [] := by
    intro h
    rw [h] at hper_len
    simp at hper_len
    omega
  have hbf_mem : bf ∈ Sweep.selectedFreqs (Sweep.perPosition scans calib) :=
    List.mem_filterMap.2 ⟨_, reportEntry_mem _ hper_ne, hbf⟩
  have hr0 : round1 0 = 0 := by with_unfolding_all decide
  have hcore : (if 2 ≤ (Sweep.selectedFreqs (Sweep.perPosition scans calib)).length then
      round1 (listMax (Sweep.selectedFreqs (Sweep.perPosition scans calib)) -
        listMin (Sweep.selectedFreqs (Sweep.perPosition scans calib))) else 0) =
      round1 (listMax (Sweep.selectedFreqs (Sweep.perPosition scans calib)) -
        listMin (Sweep.selectedFreqs (Sweep.perPosition scans calib))) := by
    by_cases hv : 2 ≤ (Sweep.selectedFreqs (Sweep.perPosition scans calib)).length
    · rw [if_pos hv]
    · rw [if_neg hv]
      rcases hsel : Sweep.selectedFreqs (Sweep.perPosition scans calib) with _ | ⟨x, xs⟩
      · rw [hsel] at hbf_mem
        simp at hbf_mem
      · rcases xs with _ | ⟨y, ys⟩
        · simp only [listMax, listMin, pickMax, pickMin, List.foldl_nil, id, sub_self, hr0]
        · rw [hsel] at hv
          simp at hv
  have hmob : (Sweep.analyzeMultiPosition scans calib).peakMobility =
      round1 (listMax (Sweep.selectedFreqs (Sweep.perPosition scans calib)) -
        listMin (Sweep.selectedFreqs (Sweep.perPosition scans calib))) := by
    rw [Sweep.analyzeMultiPosition, if_neg hlen]
    simp only [hbf]
    exact hcore
  have hcls : (Sweep.analyzeMultiPosition scans calib).classification =
      (if calib ≠ [] ∧ 2 ≤ scans.length then
        (if Sweep.expectedMobility scans calib * (2/5) ≤
            round1 (listMax (Sweep.selectedFreqs (Sweep.perPosition scans calib)) -
              listMin (Sweep.selectedFreqs (Sweep.perPosition scans calib))) then
          Sweep.Classification.belt
        else Sweep.Classification.ambiguous)
      else if 10 ≤ round1 (listMax (Sweep.selectedFreqs (Sweep.perPosition scans calib)) -
          listMin (Sweep.selectedFreqs (Sweep.perPosition scans calib))) then
        Sweep.Classification.belt
      else Sweep.Classification.ambiguous) := by
    rw [Sweep.analyzeMultiPosition, if_neg hlen]
    simp only [hbf]
    rw [hcore]
  refine ⟨hmob, ?_, ?_⟩
  · rw [hcls, hmob]
    by_cases hcal : calib ≠ []
    · rw [if_pos ⟨hcal, h2⟩, if_pos hcal]
      by_cases ht : Sweep.expectedMobility scans calib * (2/5) ≤
          round1 (listMax (Sweep.selectedFreqs (Sweep.perPosition scans calib)) -
            listMin (Sweep.selectedFreqs (Sweep.perPosition scans calib)))
      · simp [ht]
      · simp [ht]
    · rw [if_neg (by tauto), if_neg hcal]
      by_cases ht : (10 : ℚ) ≤
          round1 (listMax (Sweep.selectedFreqs (Sweep.perPosition scans calib)) -
            listMin (Sweep.selectedFreqs (Sweep.perPosition scans calib)))
      · simp [ht]
      · simp [ht]
  · rw [hcls]
    by_cases hcal : calib ≠ []
    · rw [if_pos ⟨hcal, h2⟩]
      split
      · exact Or.inl rfl
      · exact Or.inr rfl
    · rw [if_neg (by tauto)]
      split
      · exact Or.inl rfl
      · exact Or.inr rfl

/-- Witness for C5 on the two-position example. -/
theorem c5_mobility_classification_witness :
    2 ≤ Sweep.c5scans.length ∧
    (Sweep.reportEntry (Sweep.perPosition Sweep.c5scans Sweep.c5cal)).2.freq = some 100 ∧
    ((Sweep.analyzeMultiPosition Sweep.c5scans Sweep.c5cal).peakMobility =
        round1 (listMax (Sweep.selectedFreqs (Sweep.perPosition Sweep.c5scans Sweep.c5cal)) -
          listMin (Sweep.selectedFreqs (Sweep.perPosition Sweep.c5scans Sweep.c5cal))) ∧
      ((Sweep.analyzeMultiPosition Sweep.c5scans Sweep.c5cal).classification =
          Sweep.Classification.belt ↔
        (if Sweep.c5cal ≠ [] then
          Sweep.expectedMobility Sweep.c5scans Sweep.c5cal * (2/5) ≤
            (Sweep.analyzeMultiPosition Sweep.c5scans Sweep.c5cal).peakMobility
        else 10 ≤ (Sweep.analyzeMultiPosition Sweep.c5scans Sweep.c5cal).peakMobility)) ∧
      ((Sweep.analyzeMultiPosition Sweep.c5scans Sweep.c5cal).classification =
          Sweep.Classification.belt ∨
        (Sweep.analyzeMultiPosition Sweep.c5scans Sweep.c5cal).classification =
          Sweep.Classification.ambiguous)) := by
  refine ⟨by with_unfolding_all decide, by with_unfolding_all decide, ?_⟩
  exact c5_mobility_classification Sweep.c5scans Sweep.c5cal
    (by with_unfolding_all decide) 100 (by with_unfolding_all decide)

/-- Sum of the per-sample axis dot product, divided by the norm: linear in
the per-axis sums. -/
theorem zipWith_dot_sum {K : Type} [LinearOrderedField K] (nx ny s : K) :
    ∀ (ax ay : List K), ax.length = ay.length →
      (List.zipWith (fun x y => (x * nx + y * ny) / s) ax ay).sum =
        (ax.sum * nx + ay.sum * ny) / s := by
  intro ax
  induction ax with
  | nil =>
    intro ay h
    have hay : ay = [] := List.length_eq_zero.1 (by simpa using h.symm)
    subst hay
    simp
  | cons x axs ih =>
    intro ay hlen
    rcases ay with _ | ⟨y, ays⟩
    · simp at hlen
    · simp only [List.zipWith_cons_cons, List.sum_cons]
      rw [ih ays (by simpa using hlen), div_add_div_same]
      congr 1
      ring

/-- The mean-after of the raw projection equals the projection of the
per-axis means: `_load_and_project`'s scalar DC removal commutes with the
linear projection. -/
theorem projection_signal_eq {K : Type} [LinearOrderedField K] (sqrt : K → K)
    (ax ay : List K) (nx ny : K) (hlen : ax.length = ay.length)
    (hs : 0 < sqrt (nx ^ 2 + ny ^ 2)) :
    Sweep.sweepWorkingSignal sqrt ax ay (some (nx, ny)) =
      Sweep.specCenteredProjection sqrt ax ay nx ny := by
  unfold Sweep.sweepWorkingSignal Sweep.specCenteredProjection
  dsimp only
  rw [if_pos hs]
  dsimp only [Option.getD_some]
  rw [List.map_zipWith]
  have hzlen : (List.zipWith (fun x y => (x * nx + y * ny) / sqrt (nx ^ 2 + ny ^ 2)) ax ay).length
      = ax.length := by
    rw [List.length_zipWith, hlen, min_self]
  have hM : listMean (List.zipWith (fun x y => (x * nx + y * ny) / sqrt (nx ^ 2 + ny ^ 2)) ax ay)
      = (listMean ax * nx + listMean ay * ny) / sqrt (nx ^ 2 + ny ^ 2) := by
    unfold listMean
    rw [zipWith_dot_sum nx ny _ ax ay hlen, hzlen, hlen]
    ring
  rw [hM]
  have hfun : (fun (a b : K) =>
      (a * nx + b * ny) / sqrt (nx ^ 2 + ny ^ 2) -
        (listMean ax * nx + listMean ay * ny) / sqrt (nx ^ 2 + ny ^ 2)) =
      (fun (a b : K) =>
        (a - listMean ax) * (nx / sqrt (nx ^ 2 + ny ^ 2)) +
        (b - listMean ay) * (ny / sqrt (nx ^ 2 + ny ^ 2))) := by
    funext a b
    ring
  rw [hfun]

/-- C2 counterexample: in the sweep path (`_load_and_project`, no projection
axis) the mean is removed from the magnitude signal *after* the norm is
taken, which differs from removing the per-axis DC first: for axis samples
`ax = [0, 2], ay = [0, 0]` the code produces `[-1, 1]`, while the
mean-centered Euclidean norm the claim prescribes is `[1, 1]`. -/
theorem c2_dc_removal_counterexample :
    Sweep.sweepWorkingSignal Real.sqrt [0, 2] [0, 0] none = [-1, 1] ∧
    Sweep.specCenteredMagnitude Real.sqrt [0, 2] [0, 0] = [1, 1] ∧
    ([(-1 : ℝ), 1] : List ℝ) ≠ [1, 1] := by
  have h4 : Real.sqrt ((2 : ℝ) ^ 2 + 0 ^ 2) = 2 := by
    rw [show ((2 : ℝ) ^ 2 + 0 ^ 2) = 2 ^ 2 by norm_num,
      Real.sqrt_sq (by norm_num : (0 : ℝ) ≤ 2)]
  have h00 : Real.sqrt ((0 : ℝ) ^ 2 + 0 ^ 2) = 0 := by
    rw [show ((0 : ℝ) ^ 2 + 0 ^ 2) = 0 by norm_num, Real.sqrt_zero]
  have h1a : Real.sqrt (((0 : ℝ) - 1) ^ 2 + (0 - 0) ^ 2) = 1 := by
    rw [show (((0 : ℝ) - 1) ^ 2 + (0 - 0) ^ 2) = 1 ^ 2 by norm_num,
      Real.sqrt_sq (by norm_num : (0 : ℝ) ≤ 1)]
  have h1b : Real.sqrt (((2 : ℝ) - 1) ^ 2 + (0 - 0) ^ 2) = 1 := by
    rw [show (((2 : ℝ) - 1) ^ 2 + (0 - 0) ^ 2) = 1 ^ 2 by norm_num,
      Real.sqrt_sq (by norm_num : (0 : ℝ) ≤ 1)]
  refine ⟨?_, ?_, by norm_num⟩
  · unfold Sweep.sweepWorkingSignal
    simp only [List.zipWith_cons_cons, List.zipWith_nil_right, Option.getD_none, h00, h4,
      listMean, List.sum_cons, List.sum_nil, List.length_cons, List.length_nil, List.map_cons,
      List.map_nil]
    norm_num
  · unfold Sweep.specCenteredMagnitude
    simp only [listMean, List.sum_cons, List.sum_nil, List.length_cons, List.length_nil]
    norm_num [h1a, h1b]

/-- C2 (amended): in the pluck path (`analyze_pluck` steps 1–2) the working
signal is the Euclidean norm of the mean-centered axes, exactly as the spec
orders the operations.  In the sweep path (`_load_and_project`) the
magnitude or projection of the *raw* axes is computed first and the mean of
the resulting scalar signal is removed afterwards; for a projection axis of
positive norm this is equivalent (by linearity) to projecting the
mean-centered axis pair onto the normalized vector, but for the
no-axis magnitude signal the order of operations differs from the claim. -/
theorem c2_dc_removal :
    (∀ (ax ay : List ℝ),
      BeltPluck.pluckWorkingSignal Real.sqrt ax ay =
        Sweep.specCenteredMagnitude Real.sqrt ax ay) ∧
    (∀ (ax ay : List ℝ) (nx ny : ℝ), ax.length = ay.length →
      0 < Real.sqrt (nx ^ 2 + ny ^ 2) →
      Sweep.sweepWorkingSignal Real.sqrt ax ay (some (nx, ny)) =
        Sweep.specCenteredProjection Real.sqrt ax ay nx ny) := by
  constructor
  · intro ax ay
    rfl
  · intro ax ay nx ny hlen hs
    exact projection_signal_eq Real.sqrt ax ay nx ny hlen hs

/-- Witness for C2: the projection equivalence at the concrete axis (1, 0)
and axis samples `[1, 3]`, `[0, 0]`. -/
theorem c2_dc_removal_witness :
    ([(1 : ℝ), 3].length = [(0 : ℝ), 0].length) ∧
    (0 : ℝ) < Real.sqrt ((1 : ℝ) ^ 2 + 0 ^ 2) ∧
    (BeltPluck.pluckWorkingSignal Real.sqrt [1, 3] [0, 0] =
      Sweep.specCenteredMagnitude Real.sqrt [1, 3] [0, 0]) ∧
    (Sweep.sweepWorkingSignal Real.sqrt [1, 3] [0, 0] (some (1, 0)) =
      Sweep.specCenteredProjection Real.sqrt [1, 3] [0, 0] 1 0) := by
  have hs : (0 : ℝ) < Real.sqrt ((1 : ℝ) ^ 2 + 0 ^ 2) := by
    rw [show ((1 : ℝ) ^ 2 + 0 ^ 2) = 1 by norm_num, Real.sqrt_one]
    norm_num
  exact ⟨by simp, hs, c2_dc_removal.1 [1, 3] [0, 0],
    c2_dc_removal.2 [1, 3] [0, 0] 1 0 (by simp) hs⟩

theorem getLastD_cons_cons (a b : ℕ) (l : List ℕ) :
    (a :: b :: l).getLastD 0 = (b :: l).getLastD 0 := by
  simp [List.getLastD_cons]

theorem getLastD_mem : ∀ (l : List ℕ), l ≠ [] → l.getLastD 0 ∈ l := by
  intro l
  induction l with
  | nil => intro h; exact absurd rfl h
  | cons a l ih =>
    intro _
    rcases l with _ | ⟨b, l'⟩
    · simp [List.getLastD]
    · rw [getLastD_cons_cons]
      exact List.mem_cons_of_mem _ (ih (by simp))

theorem sorted_headD_le {l : List ℕ} (hs : l.Pairwise (· < ·)) :
    ∀ x ∈ l, l.headD 0 ≤ x := by
  rcases l with _ | ⟨a, l⟩
  · intro x hx; simp at hx
  · intro x hx
    rcases List.mem_cons.1 hx with rfl | hx'
    · exact le_refl _
    · exact le_of_lt ((List.pairwise_cons.1 hs).1 x hx')

theorem sorted_le_getLastD : ∀ (l : List ℕ), l.Pairwise (· < ·) →
    ∀ x ∈ l, x ≤ l.getLastD 0 := by
  intro l
  induction l with
  | nil => intro _ x hx; simp at hx
  | cons a l ih =>
    intro hpw x hx
    rcases l with _ | ⟨b, l'⟩
    · simp at hx
      subst hx
      simp [List.getLastD]
    · rw [getLastD_cons_cons]
      have hpw' := (List.pairwise_cons.1 hpw).2
      rcases List.mem_cons.1 hx with rfl | hx'
      · have hab : x < b := (List.pairwise_cons.1 hpw).1 b (List.mem_cons_self _ _)
        exact le_trans (le_of_lt hab) (ih hpw' b (List.mem_cons_self _ _))
      · exact ih hpw' x hx'

theorem getD_mono_of_sorted (l : List ℝ) (h : l.Pairwise (· ≤ ·)) (i j : ℕ) (hij : i ≤ j)
    (hj : j < l.length) : l.getD i 0 ≤ l.getD j 0 := by
  rcases eq_or_lt_of_le hij with rfl | hlt
  · exact le_refl _
  · have := List.pairwise_iff_getElem.1 h i j (by omega) hj hlt
    rw [List.getD_eq_getElem?_getD, List.getD_eq_getElem?_getD,
      List.getElem?_eq_getElem (by omega), List.getElem?_eq_getElem hj]
    simpa using this

theorem aboveHalfIndices_sorted {K : Type} [LinearOrderedField K] (hp : K) (mags : List K) :
    (BeltPluck.aboveHalfIndices hp mags).Pairwise (· < ·) :=
  (List.pairwise_lt_range _).filter _

theorem aboveHalfIndices_lt_length {K : Type} [LinearOrderedField K] (hp : K) (mags : List K) :
    ∀ i ∈ BeltPluck.aboveHalfIndices hp mags, i < mags.length := fun i hi =>
  List.mem_range.1 (List.mem_of_mem_filter hi)

/-- On a frequency grid sorted ascending, the first/last above-half-power bin
span computed by the code equals the spec's lowest/highest above-half-power
frequency span. -/
theorem q_factor_eq_spec (f m : ℝ) (freqs mags : List ℝ)
    (hsort : freqs.Pairwise (· ≤ ·)) (hlen : freqs.length = mags.length) :
    BeltPluck.calculate_q_factor Real.sqrt f m freqs mags =
      BeltPluck.q_factor_spec Real.sqrt f m freqs mags := by
  unfold BeltPluck.calculate_q_factor BeltPluck.q_factor_spec
  dsimp only
  by_cases hl : (BeltPluck.aboveHalfIndices (m / Real.sqrt 2) mags).length < 2
  · have hmap : ((BeltPluck.aboveHalfIndices (m / Real.sqrt 2) mags).map
        (fun j => freqs.getD j 0)).length < 2 := by
      rw [List.length_map]; exact hl
    rw [if_pos hl, if_pos hmap]
  · have hmap : ¬ ((BeltPluck.aboveHalfIndices (m / Real.sqrt 2) mags).map
        (fun j => freqs.getD j 0)).length < 2 := by
      rw [List.length_map]; exact hl
    rw [if_neg hl, if_neg hmap]
    have hbw : freqs.getD ((BeltPluck.aboveHalfIndices (m / Real.sqrt 2) mags).getLastD 0) 0 -
        freqs.getD ((BeltPluck.aboveHalfIndices (m / Real.sqrt 2) mags).headD 0) 0 =
        listMax ((BeltPluck.aboveHalfIndices (m / Real.sqrt 2) mags).map
          fun j => freqs.getD j 0) -
        listMin ((BeltPluck.aboveHalfIndices (m / Real.sqrt 2) mags).map
          fun j => freqs.getD j 0) := by
      rcases hne : BeltPluck.aboveHalfIndices (m / Real.sqrt 2) mags with _ | ⟨i, is⟩
      · rw [hne] at hl
        simp at hl
      · have hsorted : (i :: is).Pairwise (· < ·) := by
          rw [← hne]; exact aboveHalfIndices_sorted _ _
        have hmemlt : ∀ j ∈ i :: is, j < mags.length := by
          rw [← hne]; exact aboveHalfIndices_lt_length _ _
        have hmono : ∀ a b : ℕ, b ∈ i :: is → a ≤ b →
            freqs.getD a 0 ≤ freqs.getD b 0 := fun a b hb hab =>
          getD_mono_of_sorted freqs hsort a b hab (by rw [hlen]; exact hmemlt b hb)
        have hlast_mem : (i :: is).getLastD 0 ∈ i :: is := getLastD_mem _ (by simp)
        have hsel_lo : ∀ d ∈ freqs.getD i 0 :: (is.map fun j => freqs.getD j 0),
            freqs.getD i 0 ≤ d := by
          intro d hd
          rcases List.mem_cons.1 hd with rfl | hd'
          · exact le_refl _
          · rcases List.mem_map.1 hd' with ⟨j, hj, rfl⟩
            exact hmono i j (List.mem_cons_of_mem _ hj)
              (le_of_lt ((List.pairwise_cons.1 hsorted).1 j hj))
        have hsel_hi : ∀ d ∈ freqs.getD i 0 :: (is.map fun j => freqs.getD j 0),
            d ≤ freqs.getD ((i :: is).getLastD 0) 0 := by
          intro d hd
          rcases List.mem_cons.1 hd with rfl | hd'
          · exact hmono i ((i :: is).getLastD 0) hlast_mem
              (sorted_le_getLastD _ hsorted i (List.mem_cons_self _ _))
          · rcases List.mem_map.1 hd' with ⟨j, hj, rfl⟩
            exact hmono j ((i :: is).getLastD 0) hlast_mem
              (sorted_le_getLastD _ hsorted j (List.mem_cons_of_mem _ hj))
        have hlast_sel : freqs.getD ((i :: is).getLastD 0) 0 ∈
            freqs.getD i 0 :: (is.map fun j => freqs.getD j 0) := by
          rcases List.mem_cons.1 hlast_mem with hli | hlis
          · rw [hli]; exact List.mem_cons_self _ _
          · exact List.mem_cons_of_mem _ (List.mem_map.2 ⟨_, hlis, rfl⟩)
        have hminmem : pickMin id (freqs.getD i 0) (is.map fun j => freqs.getD j 0) ∈
            freqs.getD i 0 :: (is.map fun j => freqs.getD j 0) := pickMin_mem id _ _
        have hmaxmem : pickMax id (freqs.getD i 0) (is.map fun j => freqs.getD j 0) ∈
            freqs.getD i 0 :: (is.map fun j => freqs.getD j 0) := pickMax_mem id _ _
        have hminval : pickMin id (freqs.getD i 0) (is.map fun j => freqs.getD j 0) =
            freqs.getD i 0 := by
          refine le_antisymm ?_ (hsel_lo _ hminmem)
          simpa using pickMin_le id (is.map fun j => freqs.getD j 0) (freqs.getD i 0)
            (freqs.getD i 0) (List.mem_cons_self _ _)
        have hmaxval : pickMax id (freqs.getD i 0) (is.map fun j => freqs.getD j 0) =
            freqs.getD ((i :: is).getLastD 0) 0 := by
          refine le_antisymm (hsel_hi _ hmaxmem) ?_
          simpa using pickMax_le id (is.map fun j => freqs.getD j 0) (freqs.getD i 0)
            (freqs.getD ((i :: is).getLastD 0) 0) hlast_sel
        simp only [List.map_cons, List.headD_cons, listMax, listMin, hminval, hmaxval]
    rw [hbw]

/-- C7: the Q-factor of a candidate at frequency `f` and magnitude `m` over a
band-limited spectrum with an ascending frequency grid equals `f` divided by
the span between the lowest and highest in-band frequency whose magnitude
strictly exceeds `m / √2`; it is 0 when fewer than two bins clear the
half-power level and 0 when that bandwidth is zero (a safe default, never an
error), and the `belt_analyzer_v3` variant is the same computation with `m`
read from the bin nearest to `f`. -/
theorem c7_q_factor :
    (∀ (f m : ℝ) (freqs mags : List ℝ), freqs.Pairwise (· ≤ ·) →
      freqs.length = mags.length →
      BeltPluck.calculate_q_factor Real.sqrt f m freqs mags =
        BeltPluck.q_factor_spec Real.sqrt f m freqs mags) ∧
    (∀ (f m : ℝ) (freqs mags : List ℝ),
      (BeltPluck.aboveHalfIndices (m / Real.sqrt 2) mags).length < 2 →
      BeltPluck.calculate_q_factor Real.sqrt f m freqs mags = 0) ∧
    (∀ (f m : ℝ) (freqs mags : List ℝ),
      ¬ (BeltPluck.aboveHalfIndices (m / Real.sqrt 2) mags).length < 2 →
      freqs.getD ((BeltPluck.aboveHalfIndices (m / Real.sqrt 2) mags).getLastD 0) 0 -
        freqs.getD ((BeltPluck.aboveHalfIndices (m / Real.sqrt 2) mags).headD 0) 0 = 0 →
      BeltPluck.calculate_q_factor Real.sqrt f m freqs mags = 0) ∧
    (∀ (freq : ℝ) (freqs mags : List ℝ),
      V3.calculate_q_factor Real.sqrt freq freqs mags =
        BeltPluck.calculate_q_factor Real.sqrt freq
          (mags.getD (V3.nearestBinIdx freqs freq) 0) freqs mags) := by
  refine ⟨q_factor_eq_spec, ?_, ?_, ?_⟩
  · intro f m freqs mags hl
    unfold BeltPluck.calculate_q_factor
    rw [if_pos hl]
  · intro f m freqs mags hl hbw
    unfold BeltPluck.calculate_q_factor
    rw [if_neg hl, if_pos hbw]
  · intro freq freqs mags
    rfl

/-- Witness for C7: a sorted three-bin grid for the equivalence, an empty
spectrum for the fewer-than-two-bins default, and a two-bin constant grid
(`freqs = [5, 5]`, every magnitude above half power) for the zero-bandwidth
default. -/
theorem c7_q_factor_witness :
    (([1, 2, 4] : List ℝ).Pairwise (· ≤ ·) ∧
      ([1, 2, 4] : List ℝ).length = ([1, 0, 1] : List ℝ).length ∧
      BeltPluck.calculate_q_factor Real.sqrt 4 0 [1, 2, 4] [1, 0, 1] =
        BeltPluck.q_factor_spec Real.sqrt 4 0 [1, 2, 4] [1, 0, 1]) ∧
    ((BeltPluck.aboveHalfIndices ((0 : ℝ) / Real.sqrt 2) ([] : List ℝ)).length < 2 ∧
      BeltPluck.calculate_q_factor Real.sqrt 4 0 [1, 2, 4] ([] : List ℝ) = 0) ∧
    (¬ (BeltPluck.aboveHalfIndices ((-2 : ℝ) / Real.sqrt 2) [0, 0]).length < 2 ∧
      ([5, 5] : List ℝ).getD
          ((BeltPluck.aboveHalfIndices ((-2 : ℝ) / Real.sqrt 2) [0, 0]).getLastD 0) 0 -
        ([5, 5] : List ℝ).getD
          ((BeltPluck.aboveHalfIndices ((-2 : ℝ) / Real.sqrt 2) [0, 0]).headD 0) 0 = 0 ∧
      BeltPluck.calculate_q_factor Real.sqrt 4 (-2) [5, 5] [0, 0] = 0) ∧
    V3.calculate_q_factor Real.sqrt 4 [1, 2, 4] [1, 0, 1] =
      BeltPluck.calculate_q_factor Real.sqrt 4
        (([1, 0, 1] : List ℝ).getD (V3.nearestBinIdx ([1, 2, 4] : List ℝ) 4) 0)
        [1, 2, 4] [1, 0, 1] := by
  have hso : ([1, 2, 4] : List ℝ).Pairwise (· ≤ ·) := by
    norm_num [List.pairwise_cons]
  have hln : ([1, 2, 4] : List ℝ).length = ([1, 0, 1] : List ℝ).length := by simp
  have hempty : (BeltPluck.aboveHalfIndices ((0 : ℝ) / Real.sqrt 2) ([] : List ℝ)).length < 2 := by
    simp [BeltPluck.aboveHalfIndices]
  have hneg : (-2 : ℝ) / Real.sqrt 2 < 0 :=
    div_neg_of_neg_of_pos (by norm_num) (Real.sqrt_pos.2 (by norm_num))
  have h0 : decide ((-2 : ℝ) / Real.sqrt 2 < ([0, 0] : List ℝ).getD 0 0) = true :=
    decide_eq_true (by simpa using hneg)
  have h1 : decide ((-2 : ℝ) / Real.sqrt 2 < ([0, 0] : List ℝ).getD 1 0) = true :=
    decide_eq_true (by simpa using hneg)
  have hidx : BeltPluck.aboveHalfIndices ((-2 : ℝ) / Real.sqrt 2) [0, 0] = [0, 1] := by
    unfold BeltPluck.aboveHalfIndices
    rw [show List.range ([0, 0] : List ℝ).length = [0, 1] from rfl]
    simp only [List.filter, h0, h1]
  refine ⟨⟨hso, hln, c7_q_factor.1 4 0 [1, 2, 4] [1, 0, 1] hso hln⟩,
    ⟨hempty, c7_q_factor.2.1 4 0 [1, 2, 4] ([] : List ℝ) hempty⟩,
    ⟨by rw [hidx]; norm_num, by rw [hidx]; norm_num, ?_⟩,
    c7_q_factor.2.2.2 4 [1, 2, 4] [1, 0, 1]⟩
  exact c7_q_factor.2.2.1 4 (-2) [5, 5] [0, 0] (by rw [hidx]; norm_num)
    (by rw [hidx]; norm_num)
